import Mathlib

/-!
# Verification of the emergency-vehicle routing core

Shallow embedding of the routing components of the `emergency` repository:

* `backend/utils/location.py` — Haversine distance (`calculate_distance`),
  nearest-station selection (`get_nearest_stations`);
* `backend/utils/pathfinding.py` — the `PathFinder` class: traffic-aware
  per-edge cost (`weight_func`), route calculation (`_calculate_route`),
  nearest-node lookup (`_get_nearest_node`) and the candidate router
  (`find_optimal_route`);
* `backend/api/detect_emergency_vehicles.py` — the grid A* search (`astar`).

Python floats are embedded as real numbers (exact rationals where the code
only manipulates rational data).  Python dictionaries are embedded as
association lists, exceptions as `Except`/`Option` results, and unbounded
loops as fuel-indexed recursion where fuel exhaustion is mapped to the
failure value, so that the embedding agrees with the source wherever the
source terminates.
-/

namespace Emergency

/-! ## GeoMath: `calculate_distance` from `backend/utils/location.py` -/

/-- `math.radians`: degrees to radians. -/
noncomputable def radians (x : ℝ) : ℝ := x * Real.pi / 180

/-- `math.atan2 y x`, the standard two-argument arctangent. -/
noncomputable def atan2 (y x : ℝ) : ℝ :=
  if 0 < x then Real.arctan (y / x)
  else if x < 0 then
    (if 0 ≤ y then Real.arctan (y / x) + Real.pi else Real.arctan (y / x) - Real.pi)
  else
    (if 0 < y then Real.pi / 2 else if y < 0 then -(Real.pi / 2) else 0)

/-- The intermediate quantity `a` computed inside `calculate_distance`
(`location.py` lines 17–19).  Points are `(lat, lon)` pairs in degrees. -/
noncomputable def haversineA (p1 p2 : ℝ × ℝ) : ℝ :=
  let d_lat := radians (p2.1 - p1.1)
  let d_lon := radians (p2.2 - p1.2)
  Real.sin (d_lat / 2) * Real.sin (d_lat / 2) +
    Real.cos (radians p1.1) * Real.cos (radians p2.1) *
      Real.sin (d_lon / 2) * Real.sin (d_lon / 2)

/-- `calculate_distance` (`location.py` lines 5–24): Haversine distance in
kilometres with Earth radius `R = 6371`.  The code's local `a` is
`haversineA p1 p2` and its local `c` is the factor `2 * atan2 ...`. -/
noncomputable def calculate_distance (p1 p2 : ℝ × ℝ) : ℝ :=
  6371 * (2 * atan2 (Real.sqrt (haversineA p1 p2))
    (Real.sqrt (1 - haversineA p1 p2)))

lemma haversineA_comm (p q : ℝ × ℝ) : haversineA p q = haversineA q p := by
  unfold haversineA radians
  have h1 : (q.1 - p.1) * Real.pi / 180 = -((p.1 - q.1) * Real.pi / 180) := by ring
  have h2 : (q.2 - p.2) * Real.pi / 180 = -((p.2 - q.2) * Real.pi / 180) := by ring
  rw [h1, h2]
  simp only [neg_div, Real.sin_neg]
  ring

lemma haversineA_self (p : ℝ × ℝ) : haversineA p p = 0 := by
  unfold haversineA radians
  simp

/-- C7. For all coordinate pairs `(a, b)` the Haversine distance
`calculate_distance` is symmetric, and `calculate_distance a a = 0`. -/
theorem C7_calculate_distance_symm_and_self_eq_zero :
    ∀ a b : ℝ × ℝ, calculate_distance a b = calculate_distance b a ∧
      calculate_distance a a = 0 := by
  intro p q
  constructor
  · unfold calculate_distance
    rw [haversineA_comm]
  · unfold calculate_distance
    rw [haversineA_self]
    simp [atan2, Real.arctan_zero]

/-! ### The Haversine formula is the great-circle metric on the unit sphere

`calculate_distance p q = 6371 * angle (sph p) (sph q)` where `sph` maps a
`(lat, lon)` pair to the corresponding unit vector in ℝ³.  The triangle
inequality (claim C8) follows from the triangle inequality for angles
between unit vectors. -/

open InnerProductGeometry in
/-- The point on the unit sphere determined by a `(lat, lon)` pair in
degrees. -/
noncomputable def sph (p : ℝ × ℝ) : EuclideanSpace ℝ (Fin 3) :=
  ![Real.cos (radians p.1) * Real.cos (radians p.2),
    Real.cos (radians p.1) * Real.sin (radians p.2),
    Real.sin (radians p.1)]

lemma inner_sph (p q : ℝ × ℝ) :
    (inner (sph p) (sph q) : ℝ) =
      Real.cos (radians p.1) * Real.cos (radians q.1) *
        Real.cos (radians (q.2 - p.2)) +
      Real.sin (radians p.1) * Real.sin (radians q.1) := by
  rw [PiLp.inner_apply]
  simp only [RCLike.inner_apply, conj_trivial, Fin.sum_univ_three]
  have hlin : radians (q.2 - p.2) = radians q.2 - radians p.2 := by
    unfold radians; ring
  rw [hlin, Real.cos_sub]
  simp only [sph]
  norm_num [Matrix.cons_val_zero, Matrix.cons_val_one]
  ring

lemma norm_sph (p : ℝ × ℝ) : ‖sph p‖ = 1 := by
  have h : ‖sph p‖ ^ 2 = 1 := by
    rw [← real_inner_self_eq_norm_sq, PiLp.inner_apply]
    simp only [RCLike.inner_apply, conj_trivial, Fin.sum_univ_three, sph]
    norm_num [Matrix.cons_val_zero, Matrix.cons_val_one]
    nlinarith [Real.sin_sq_add_cos_sq (radians p.1), Real.sin_sq_add_cos_sq (radians p.2)]
  calc ‖sph p‖ = Real.sqrt (‖sph p‖ ^ 2) := (Real.sqrt_sq (norm_nonneg _)).symm
    _ = 1 := by rw [h, Real.sqrt_one]

/-- Half-angle identity in product form, as the code writes `sin(t/2)*sin(t/2)`. -/
lemma sin_half_mul_self (t : ℝ) :
    Real.sin (t / 2) * Real.sin (t / 2) = (1 - Real.cos t) / 2 := by
  have h := Real.cos_sq (t / 2)
  have h2 : 2 * (t / 2) = t := by ring
  rw [h2] at h
  have hs := Real.sin_sq (t / 2)
  have : Real.sin (t / 2) * Real.sin (t / 2) = Real.sin (t / 2) ^ 2 := by ring
  rw [this, hs, h]; ring

lemma haversineA_eq (p q : ℝ × ℝ) :
    haversineA p q = (1 - (inner (sph p) (sph q) : ℝ)) / 2 := by
  rw [inner_sph]
  unfold haversineA
  have hlat : radians (q.1 - p.1) = radians q.1 - radians p.1 := by
    unfold radians; ring
  rw [hlat]
  have h1 := sin_half_mul_self (radians q.1 - radians p.1)
  have h2 := sin_half_mul_self (radians (q.2 - p.2))
  rw [Real.cos_sub] at h1
  linear_combination h1 + Real.cos (radians p.1) * Real.cos (radians q.1) * h2

lemma abs_inner_sph_le_one (p q : ℝ × ℝ) : |(inner (sph p) (sph q) : ℝ)| ≤ 1 := by
  have h := abs_real_inner_le_norm (sph p) (sph q)
  rwa [norm_sph, norm_sph, one_mul] at h

lemma haversineA_nonneg (p q : ℝ × ℝ) : 0 ≤ haversineA p q := by
  rw [haversineA_eq]
  have := abs_inner_sph_le_one p q
  have h1 : (inner (sph p) (sph q) : ℝ) ≤ 1 := le_of_abs_le this
  linarith

lemma haversineA_le_one (p q : ℝ × ℝ) : haversineA p q ≤ 1 := by
  rw [haversineA_eq]
  have := abs_inner_sph_le_one p q
  have h1 : (-1 : ℝ) ≤ inner (sph p) (sph q) := neg_le_of_abs_le this
  linarith

/-- For `a ∈ [0, 1]` the core of `calculate_distance` is the central angle:
`2 * atan2 (√a) (√(1−a)) = arccos (1 − 2a)`. -/
lemma two_mul_atan2_sqrt {a : ℝ} (h0 : 0 ≤ a) (h1 : a ≤ 1) :
    2 * atan2 (Real.sqrt a) (Real.sqrt (1 - a)) = Real.arccos (1 - 2 * a) := by
  rcases lt_or_eq_of_le h1 with hlt | heq
  · -- a < 1 : the positive-x branch of atan2
    have hx : 0 < Real.sqrt (1 - a) := Real.sqrt_pos.2 (by linarith)
    have hsle : Real.sqrt a ≤ 1 := by
      rw [show (1 : ℝ) = Real.sqrt 1 by rw [Real.sqrt_one]]
      exact Real.sqrt_le_sqrt (by linarith)
    have hslt : Real.sqrt a < 1 := (Real.sqrt_lt' one_pos).2 (by nlinarith)
    set θ := Real.arcsin (Real.sqrt a) with hθ
    have hθ0 : 0 ≤ θ := Real.arcsin_nonneg.2 (Real.sqrt_nonneg a)
    have hθlt : θ < Real.pi / 2 := Real.arcsin_lt_pi_div_two.2 hslt
    have hsin : Real.sin θ = Real.sqrt a :=
      Real.sin_arcsin (by linarith [Real.sqrt_nonneg a]) hsle
    have hcos : Real.cos θ = Real.sqrt (1 - a) := by
      rw [hθ, Real.cos_arcsin, Real.sq_sqrt h0]
    have htan : Real.tan θ = Real.sqrt a / Real.sqrt (1 - a) := by
      rw [Real.tan_eq_sin_div_cos, hsin, hcos]
    have harctan : Real.arctan (Real.sqrt a / Real.sqrt (1 - a)) = θ := by
      rw [← htan]
      exact Real.arctan_tan (by linarith [Real.pi_div_two_pos]) hθlt
    have hbranch : atan2 (Real.sqrt a) (Real.sqrt (1 - a)) = θ := by
      unfold atan2
      rw [if_pos hx, harctan]
    rw [hbranch]
    symm
    apply Real.arccos_eq_of_eq_cos (by linarith) (by linarith [Real.pi_pos])
    have hc2 : Real.cos (2 * θ) = 2 * Real.cos θ ^ 2 - 1 := Real.cos_two_mul θ
    rw [hc2, hcos, Real.sq_sqrt (by linarith : (0:ℝ) ≤ 1 - a)]
    ring
  · -- a = 1 : atan2 1 0 = π/2
    subst heq
    have hb : atan2 (Real.sqrt 1) (Real.sqrt (1 - 1)) = Real.pi / 2 := by
      unfold atan2
      rw [show (1 : ℝ) - 1 = 0 by ring, Real.sqrt_zero, Real.sqrt_one]
      norm_num [Real.pi_pos]
    rw [hb, show (1 : ℝ) - 2 * 1 = -1 by ring, Real.arccos_neg_one]
    ring

lemma calculate_distance_eq_angle (p q : ℝ × ℝ) :
    calculate_distance p q = 6371 * InnerProductGeometry.angle (sph p) (sph q) := by
  unfold calculate_distance
  rw [two_mul_atan2_sqrt (haversineA_nonneg p q) (haversineA_le_one p q)]
  rw [haversineA_eq]
  unfold InnerProductGeometry.angle
  rw [norm_sph, norm_sph]
  congr 1
  congr 1
  ring

section AngleTriangle

variable {V : Type} [NormedAddCommGroup V] [InnerProductSpace ℝ V]

lemma cos_angle_unit {x y : V} (hx : ‖x‖ = 1) (hy : ‖y‖ = 1) :
    Real.cos (InnerProductGeometry.angle x y) = (inner x y : ℝ) := by
  rw [InnerProductGeometry.cos_angle, hx, hy]
  norm_num

lemma sin_angle_unit {x y : V} (hx : ‖x‖ = 1) (hy : ‖y‖ = 1) :
    Real.sin (InnerProductGeometry.angle x y) =
      Real.sqrt (1 - (inner x y : ℝ) * (inner x y : ℝ)) := by
  have h := InnerProductGeometry.sin_angle_mul_norm_mul_norm x y
  rw [hx, hy, real_inner_self_eq_norm_sq, real_inner_self_eq_norm_sq, hx, hy] at h
  simpa using h

lemma cos_angle_add_le_inner {x y z : V}
    (hx : ‖x‖ = 1) (hy : ‖y‖ = 1) (hz : ‖z‖ = 1) :
    Real.cos (InnerProductGeometry.angle x y + InnerProductGeometry.angle y z) ≤
      (inner x z : ℝ) := by
  rw [Real.cos_add, cos_angle_unit hx hy, cos_angle_unit hy hz,
    sin_angle_unit hx hy, sin_angle_unit hy hz]
  have hyy : (inner y y : ℝ) = 1 := by
    rw [real_inner_self_eq_norm_sq, hy]; norm_num
  have hxx : (inner x x : ℝ) = 1 := by
    rw [real_inner_self_eq_norm_sq, hx]; norm_num
  have hzz : (inner z z : ℝ) = 1 := by
    rw [real_inner_self_eq_norm_sq, hz]; norm_num
  -- components of x and z orthogonal to y
  have hinner : (inner (x - (inner x y : ℝ) • y) (z - (inner y z : ℝ) • y) : ℝ)
      = (inner x z : ℝ) - (inner x y : ℝ) * (inner y z : ℝ) := by
    simp only [inner_sub_left, inner_sub_right, real_inner_smul_left,
      real_inner_smul_right, hyy]
    ring
  have hx'sq : (inner (x - (inner x y : ℝ) • y) (x - (inner x y : ℝ) • y) : ℝ)
      = 1 - (inner x y : ℝ) * (inner x y : ℝ) := by
    simp only [inner_sub_left, inner_sub_right, real_inner_smul_left,
      real_inner_smul_right, hyy, hxx]
    rw [real_inner_comm y x]
    ring
  have hz'sq : (inner (z - (inner y z : ℝ) • y) (z - (inner y z : ℝ) • y) : ℝ)
      = 1 - (inner y z : ℝ) * (inner y z : ℝ) := by
    simp only [inner_sub_left, inner_sub_right, real_inner_smul_left,
      real_inner_smul_right, hyy, hzz]
    rw [real_inner_comm y z]
    ring
  have hnx' : ‖x - (inner x y : ℝ) • y‖ =
      Real.sqrt (1 - (inner x y : ℝ) * (inner x y : ℝ)) := by
    rw [← hx'sq, real_inner_self_eq_norm_sq, Real.sqrt_sq (norm_nonneg _)]
  have hnz' : ‖z - (inner y z : ℝ) • y‖ =
      Real.sqrt (1 - (inner y z : ℝ) * (inner y z : ℝ)) := by
    rw [← hz'sq, real_inner_self_eq_norm_sq, Real.sqrt_sq (norm_nonneg _)]
  have hcs := abs_real_inner_le_norm
    (x - (inner x y : ℝ) • y) (z - (inner y z : ℝ) • y)
  have hlow := neg_le_of_abs_le hcs
  rw [hnx', hnz', hinner] at hlow
  linarith

lemma angle_triangle_unit {x y z : V}
    (hx : ‖x‖ = 1) (hy : ‖y‖ = 1) (hz : ‖z‖ = 1) :
    InnerProductGeometry.angle x z ≤
      InnerProductGeometry.angle x y + InnerProductGeometry.angle y z := by
  rcases le_or_lt (InnerProductGeometry.angle x y +
      InnerProductGeometry.angle y z) Real.pi with hle | hgt
  · by_contra hlt
    push_neg at hlt
    have hmem1 : InnerProductGeometry.angle x y + InnerProductGeometry.angle y z ∈
        Set.Icc 0 Real.pi :=
      ⟨add_nonneg (InnerProductGeometry.angle_nonneg x y)
        (InnerProductGeometry.angle_nonneg y z), hle⟩
    have hmem2 : InnerProductGeometry.angle x z ∈ Set.Icc 0 Real.pi :=
      ⟨InnerProductGeometry.angle_nonneg x z, InnerProductGeometry.angle_le_pi x z⟩
    have hanti := Real.strictAntiOn_cos hmem1 hmem2 hlt
    have h1 := cos_angle_add_le_inner hx hy hz
    have h2 := cos_angle_unit hx hz
    linarith
  · exact (InnerProductGeometry.angle_le_pi x z).trans hgt.le

end AngleTriangle

/-- C8. The Haversine distance `calculate_distance` satisfies the triangle
inequality for all points `a b c`. -/
theorem C8_calculate_distance_triangle :
    ∀ a b c : ℝ × ℝ,
      calculate_distance a c ≤ calculate_distance a b + calculate_distance b c := by
  intro p q r
  rw [calculate_distance_eq_angle, calculate_distance_eq_angle,
    calculate_distance_eq_angle]
  have h := angle_triangle_unit (norm_sph p) (norm_sph q) (norm_sph r)
  nlinarith [h]

/-! ## NearestSelector: `get_nearest_stations` from `backend/utils/location.py` -/

/-- Python `str.lower` (the repository only lowercases ASCII identifiers). -/
def pyLower (s : String) : String := ⟨s.data.map Char.toLower⟩

/-- Python `str.upper` (the repository only uppercases ASCII identifiers). -/
def pyUpper (s : String) : String := ⟨s.data.map Char.toUpper⟩

/-- A station record from the mock catalog in `location.py`:
`{id, name, location: {lat, lng}}`. -/
structure Station where
  sid : ℕ
  sname : String
  slat : ℚ
  slng : ℚ
deriving DecidableEq

/-- A station dictionary merged with its computed `distance` key
(`{**station, 'distance': distance}`, `location.py` lines 58–61). -/
structure StationD where
  station : Station
  distance : ℝ

/-- The mock station catalog (`location.py` lines 32–47). -/
def default_stations : List (String × List Station) :=
  [("MEDICAL",
     [⟨1, "Government General Hospital", 17.0005, 81.7800⟩,
      ⟨2, "Hope Hospital", 16.9921, 81.7743⟩,
      ⟨3, "KIMS Hospital", 16.9867, 81.7889⟩]),
   ("FIRE",
     [⟨4, "Fire Station Rajahmundry", 16.9891, 81.7840⟩,
      ⟨5, "District Fire Office", 16.9927, 81.7756⟩]),
   ("POLICE",
     [⟨6, "Three Town Police Station", 16.9927, 81.7875⟩,
      ⟨7, "Two Town Police Station", 16.9867, 81.7830⟩,
      ⟨8, "One Town Police Station", 17.0012, 81.7799⟩])]

/-- `stations.get(emergency_type.upper(), [])` (`location.py` line 49). -/
def relevant_stations (stations : Option (List (String × List Station)))
    (emergency_type : String) : List Station :=
  (((stations.getD default_stations).find?
    (fun p => p.1 == pyUpper emergency_type)).map Prod.snd).getD []

/-- The list `stations_with_distances` (`location.py` lines 54–61). -/
noncomputable def stations_with_distances (location : ℚ × ℚ)
    (stations : Option (List (String × List Station)))
    (emergency_type : String) : List StationD :=
  (relevant_stations stations emergency_type).map (fun s =>
    ⟨s, calculate_distance ((location.1 : ℝ), (location.2 : ℝ))
      ((s.slat : ℝ), (s.slng : ℝ))⟩)

/-- `sorted(stations_with_distances, key=lambda x: x['distance'])`
(`location.py` line 64); Python's `sorted` is a stable merge sort. -/
noncomputable def sorted_stations (location : ℚ × ℚ)
    (stations : Option (List (String × List Station)))
    (emergency_type : String) : List StationD :=
  (stations_with_distances location stations emergency_type).mergeSort
    (fun a b => decide (a.distance ≤ b.distance))

/-- `get_nearest_stations` (`location.py` lines 26–67).  The call
`np.random.randint(len(sorted_stations))` is modelled by the explicit
parameter `rnd` (the value the RNG returned); a value `rnd ≥ len`, which
the Python RNG never draws, is mapped to the empty list. -/
noncomputable def get_nearest_stations (location : ℚ × ℚ)
    (emergency_type : String)
    (stations : Option (List (String × List Station))) (rnd : ℕ) : List StationD :=
  if (relevant_stations stations emergency_type).isEmpty then []
  else
    match (sorted_stations location stations emergency_type).get? rnd with
    | some s => [s]
    | none => []

lemma sorted_stations_perm (location : ℚ × ℚ)
    (stations : Option (List (String × List Station))) (emergency_type : String) :
    (sorted_stations location stations emergency_type).Perm
      (stations_with_distances location stations emergency_type) :=
  List.mergeSort_perm _ _

lemma sorted_stations_length (location : ℚ × ℚ)
    (stations : Option (List (String × List Station))) (emergency_type : String) :
    (sorted_stations location stations emergency_type).length =
      (relevant_stations stations emergency_type).length := by
  rw [(sorted_stations_perm location stations emergency_type).length_eq]
  unfold stations_with_distances
  rw [List.length_map]

/-- Core behaviour of `get_nearest_stations`: with a matching list and an
in-range random draw, the result is the singleton holding the `rnd`-th
element of the distance-sorted list. -/
lemma get_nearest_stations_get (location : ℚ × ℚ) (emergency_type : String)
    (stations : Option (List (String × List Station))) (rnd : ℕ)
    (hne : relevant_stations stations emergency_type ≠ [])
    (hr : rnd < (relevant_stations stations emergency_type).length) :
    ∃ s : StationD,
      (sorted_stations location stations emergency_type).get? rnd = some s ∧
      get_nearest_stations location emergency_type stations rnd = [s] := by
  have hlen : rnd < (sorted_stations location stations emergency_type).length := by
    rw [sorted_stations_length]; exact hr
  refine ⟨(sorted_stations location stations emergency_type).get ⟨rnd, hlen⟩, ?_, ?_⟩
  · exact List.get?_eq_get hlen
  · unfold get_nearest_stations
    rw [if_neg (by simpa [List.isEmpty_iff] using hne)]
    rw [List.get?_eq_get hlen]

/-- C3 counterexample: at the concrete input
`location = (16.9927, 81.7800)`, `emergency_type = "medical"`, default
catalog, the code returns a single station (not the full ascending
sequence of the 3 matching stations), and two runs that differ only in
the hidden random draw return different results — so
`get_nearest_stations` is neither the full sorted sequence nor
deterministic, contradicting the claim. -/
theorem C3_counterexample :
    (get_nearest_stations (16.9927, 81.7800) "medical" none 0).length = 1 ∧
    (relevant_stations none "medical").length = 3 ∧
    get_nearest_stations (16.9927, 81.7800) "medical" none 0 ≠
      get_nearest_stations (16.9927, 81.7800) "medical" none 1 := by
  have hne : relevant_stations none "medical" ≠ [] := by decide
  obtain ⟨s0, hs0, hr0⟩ :=
    get_nearest_stations_get (16.9927, 81.7800) "medical" none 0 hne (by decide)
  obtain ⟨s1, hs1, hr1⟩ :=
    get_nearest_stations_get (16.9927, 81.7800) "medical" none 1 hne (by decide)
  refine ⟨by rw [hr0]; rfl, by decide, ?_⟩
  rw [hr0, hr1]
  have hpw : List.Pairwise (fun a b : StationD => a.station.sid ≠ b.station.sid)
      (sorted_stations (16.9927, 81.7800) none "medical") := by
    refine (List.Perm.pairwise_iff (fun h => h.symm)
      (sorted_stations_perm (16.9927, 81.7800) none "medical")).2 ?_
    unfold stations_with_distances
    rw [List.pairwise_map]
    decide
  obtain ⟨h0, hg0⟩ := List.get?_eq_some.1 hs0
  obtain ⟨h1, hg1⟩ := List.get?_eq_some.1 hs1
  have hR := List.pairwise_iff_get.1 hpw ⟨0, h0⟩ ⟨1, h1⟩ (by norm_num)
  rw [hg0, hg1] at hR
  intro heq
  have : s0 = s1 := by
    have := List.cons.injEq s0 [] s1 [] ▸ heq
    simpa using heq
  exact hR (by rw [this])

/-- C3 (amended): `get_nearest_stations` returns a one-element list whose
element is the entry at the random index `rnd` of the matching stations
sorted ascending by Haversine distance; since the index is a random draw,
repeated calls with the same inputs need not return the same station. -/
theorem C3_single_random_station_of_sorted (location : ℚ × ℚ)
    (emergency_type : String)
    (stations : Option (List (String × List Station))) (rnd : ℕ)
    (hne : relevant_stations stations emergency_type ≠ [])
    (hr : rnd < (relevant_stations stations emergency_type).length) :
    ∃ s : StationD,
      (sorted_stations location stations emergency_type).get? rnd = some s ∧
      get_nearest_stations location emergency_type stations rnd = [s] ∧
      (sorted_stations location stations emergency_type).Perm
        (stations_with_distances location stations emergency_type) ∧
      List.Pairwise (fun a b : StationD => a.distance ≤ b.distance)
        (sorted_stations location stations emergency_type) := by
  obtain ⟨s, h1, h2⟩ :=
    get_nearest_stations_get location emergency_type stations rnd hne hr
  refine ⟨s, h1, h2, sorted_stations_perm _ _ _, ?_⟩
  have hs := @List.sorted_mergeSort StationD
    (fun a b : StationD => decide (a.distance ≤ b.distance))
    (fun a b c hab hbc => decide_eq_true
      (le_trans (of_decide_eq_true hab) (of_decide_eq_true hbc)))
    (fun a b => by
      rcases le_total a.distance b.distance with h | h <;>
        simp [decide_eq_true h])
    (stations_with_distances location stations emergency_type)
  exact hs.imp (fun h => of_decide_eq_true h)

/-- C3 amended-claim witness: one registered FIRE station, random draw 0. -/
theorem C3_single_random_station_witness :
    ∃ s : StationD,
      (sorted_stations (0, 0) (some [("FIRE", [⟨9, "Station A", 0, 0⟩])])
        "fire").get? 0 = some s ∧
      get_nearest_stations (0, 0) "fire"
        (some [("FIRE", [⟨9, "Station A", 0, 0⟩])]) 0 = [s] ∧
      (sorted_stations (0, 0) (some [("FIRE", [⟨9, "Station A", 0, 0⟩])])
        "fire").Perm
        (stations_with_distances (0, 0)
          (some [("FIRE", [⟨9, "Station A", 0, 0⟩])]) "fire") ∧
      List.Pairwise (fun a b : StationD => a.distance ≤ b.distance)
        (sorted_stations (0, 0) (some [("FIRE", [⟨9, "Station A", 0, 0⟩])])
          "fire") :=
  C3_single_random_station_of_sorted (0, 0) "fire"
    (some [("FIRE", [⟨9, "Station A", 0, 0⟩])]) 0 (by decide) (by decide)

/-! ## PathFinder: `backend/utils/pathfinding.py` -/

/-- An emergency service location (`pathfinding.py` lines 11–16). -/
structure Location where
  name : String
  lat : ℚ
  lon : ℚ
  type : String
deriving DecidableEq

/-- The `osmid` edge attribute: a single id, a list of ids, or absent
(in which case `d.get('osmid', '')` yields `''`, which is never a key of
the traffic dictionary). -/
inductive OsmId where
  | one (k : ℕ)
  | many (ks : List ℕ)
  | missing
deriving DecidableEq

/-- The edge attribute dictionary: the keys read by the code. -/
structure EdgeData where
  travel_time : Option ℚ
  osmid : OsmId
  length : Option ℚ
deriving DecidableEq

/-- A directed edge `u → v` of the road multigraph. -/
structure Edge where
  u : ℕ
  v : ℕ
  data : EdgeData
deriving DecidableEq

/-- A graph node with its `'y'` (latitude) and `'x'` (longitude)
attributes. -/
structure Node where
  id : ℕ
  y : ℚ
  x : ℚ
deriving DecidableEq

/-- The road network `self._graph`. -/
structure Graph where
  nodes : List Node
  edges : List Edge
deriving DecidableEq

/-- A traffic snapshot: the `traffic_weights` dict from osm edge id to a
multiplicative weight. -/
abbrev TrafficWeights := List (ℕ × ℚ)

/-- Dictionary lookup `traffic_weights[k]`. -/
def twGet (tw : TrafficWeights) (k : ℕ) : Option ℚ :=
  (tw.find? (fun p => p.1 == k)).map Prod.snd

/-- `weight_func` (`pathfinding.py` lines 68–76): the per-edge cost under
a traffic snapshot.  `base_time = d.get('travel_time', 1)`; a list-valued
`osmid` uses the first listed id present in the snapshot and falls back
to `base_time`; a missing `osmid` looks up the default `''`, which is
never present, giving weight `1.0`. -/
def weight_func (d : EdgeData) (traffic_weights : TrafficWeights) : ℚ :=
  let base_time := d.travel_time.getD 1
  match d.osmid with
  | OsmId.one k => base_time * ((twGet traffic_weights k).getD 1)
  | OsmId.many ks =>
    match ks.find? (fun oid => (twGet traffic_weights oid).isSome) with
    | some oid => base_time * ((twGet traffic_weights oid).getD 1)
    | none => base_time
  | OsmId.missing => base_time * 1

/-- The edge weight handed to `nx.shortest_path` (`pathfinding.py` lines
66–77): the `'travel_time'` attribute (default 1) when
`if traffic_weights:` is falsy (`None` or the empty dict), otherwise
`weight_func`. -/
def edge_cost (traffic_weights : Option TrafficWeights) (d : EdgeData) : ℚ :=
  match traffic_weights with
  | some tw => if tw.isEmpty then d.travel_time.getD 1 else weight_func d tw
  | none => d.travel_time.getD 1

/-- Select the minimum-cost frontier entry (the first one on ties) and
return the remaining entries. -/
def popMinQ : List (ℚ × List ℕ) → Option ((ℚ × List ℕ) × List (ℚ × List ℕ))
  | [] => none
  | e :: rest =>
    match popMinQ rest with
    | none => some (e, [])
    | some (m, others) =>
      if e.1 ≤ m.1 then some (e, rest) else some (m, e :: others)

/-- Relax all outgoing edges of node `n`: frontier entries carry the
accumulated cost and the reversed path from the source. -/
def expandEdges (edges : List Edge) (cost : EdgeData → ℚ) (c : ℚ)
    (rp : List ℕ) (n : ℕ) : List (ℚ × List ℕ) :=
  (edges.filter (fun e => e.u == n)).map (fun e => (c + cost e.data, e.v :: rp))

/-- Fuel-indexed uniform-cost (Dijkstra) search, the algorithm behind
`nx.shortest_path` with a weight.  Fuel exhaustion is mapped to `none`,
the same value as search failure; `shortest_path` below supplies fuel
larger than the number of queue insertions any run can perform. -/
def ucs (g : Graph) (target : ℕ) (cost : EdgeData → ℚ) :
    ℕ → List (ℚ × List ℕ) → List ℕ → Option (List ℕ)
  | 0, _, _ => none
  | fuel + 1, frontier, visited =>
    match popMinQ frontier with
    | none => none
    | some ((c, rp), rest) =>
      match rp with
      | [] => none
      | n :: _ =>
        if n = target then some rp.reverse
        else if n ∈ visited then ucs g target cost fuel rest visited
        else ucs g target cost fuel (rest ++ expandEdges g.edges cost c rp n)
          (n :: visited)

/-- `nx.shortest_path(graph, source, target, weight)`: `none` models both
`NetworkXNoPath` and the `NodeNotFound` exception, which the caller's
`except` clauses both turn into `(None, None)`. -/
def shortest_path (g : Graph) (source target : ℕ) (cost : EdgeData → ℚ) :
    Option (List ℕ) :=
  if g.nodes.any (fun n => n.id == source) && g.nodes.any (fun n => n.id == target)
  then ucs g target cost ((g.nodes.length + 1) * (g.edges.length + 1) + 1)
    [(0, [source])] []
  else none

/-- The route-length loop (`pathfinding.py` lines 86–93): for each
consecutive node pair take the first parallel edge's `length` attribute
(default 0); pairs with no edge data contribute nothing. -/
def route_length (g : Graph) (route : List ℕ) : ℚ :=
  (route.zip route.tail).foldl (fun acc uv =>
    match g.edges.find? (fun e => e.u == uv.1 && e.v == uv.2) with
    | some e => acc + e.data.length.getD 0
    | none => acc) 0

/-- `_calculate_route` (`pathfinding.py` lines 59–100), in state-passing
style: the result pair together with the graph the call leaves behind.
The source only ever reads `self._graph` (the traffic weight is applied
inside the pure `weight_func` at cost-evaluation time), so the embedding
returns the input graph unchanged — claim C2 states this frame
condition. -/
def _calculate_route (g : Graph) (start_node end_node : ℕ)
    (traffic_weights : Option TrafficWeights) :
    (Option (List ℕ) × Option ℚ) × Graph :=
  match shortest_path g start_node end_node (edge_cost traffic_weights) with
  | some route => ((some route, some (route_length g route)), g)
  | none => ((none, none), g)

/-- osmnx `great_circle` as used by `ox.nearest_nodes`: haversine
distance in metres (Earth radius 6371009 m). -/
noncomputable def great_circle (lat1 lon1 lat2 lon2 : ℝ) : ℝ :=
  6371009 * (2 * Real.arcsin (Real.sqrt (haversineA (lat1, lon1) (lat2, lon2))))

/-- `_get_nearest_node` / `ox.nearest_nodes` (`pathfinding.py` lines
55–57): the id of the node minimising great-circle distance to the query
point, the first such node on ties; `none` only for an empty node set
(where osmnx raises). -/
noncomputable def _get_nearest_node (g : Graph) (lat lon : ℚ) : Option ℕ :=
  (g.nodes.foldl (fun best n =>
    match best with
    | none => some n
    | some b =>
      if great_circle (lat : ℝ) (lon : ℝ) (n.y : ℝ) (n.x : ℝ) <
          great_circle (lat : ℝ) (lon : ℝ) (b.y : ℝ) (b.x : ℝ)
      then some n else some b) none).map Node.id

/-- `(self._graph.nodes[node]['y'], self._graph.nodes[node]['x'])`
(`pathfinding.py` line 152); the fallback `(0, 0)` stands for the
`KeyError` Python would raise, unreachable for nodes of a route through
the graph. -/
def node_coords (g : Graph) (nid : ℕ) : ℚ × ℚ :=
  match g.nodes.find? (fun n => n.id == nid) with
  | some n => (n.y, n.x)
  | none => (0, 0)

/-- The `PathFinder` state (`pathfinding.py` lines 18–26). -/
structure PathFinder where
  graph : Option Graph
  emergency_locations : List (String × List Location)

/-- A fresh `PathFinder()`: no graph, three empty per-type lists. -/
def PathFinder.init : PathFinder :=
  ⟨none, [("hospital", []), ("fire_station", []), ("police_station", [])]⟩

/-- `add_emergency_location` (`pathfinding.py` lines 49–53): append to
the per-type list, `ValueError` on an unknown type. -/
def add_emergency_location (pf : PathFinder) (l : Location) :
    Except String PathFinder :=
  if (pf.emergency_locations.find? (fun p => p.1 == l.type)).isSome then
    Except.ok ⟨pf.graph, pf.emergency_locations.map
      (fun p => if p.1 == l.type then (p.1, p.2 ++ [l]) else p)⟩
  else Except.error "Invalid location type"

/-- `self._emergency_locations[location_type]`. -/
def locationsOf (pf : PathFinder) (t : String) : List Location :=
  ((pf.emergency_locations.find? (fun p => p.1 == t)).map Prod.snd).getD []

/-- The fixed vehicle-type table (`pathfinding.py` lines 112–116). -/
def type_map : List (String × String) :=
  [("ambulance", "hospital"), ("fire_engine", "fire_station"),
   ("police", "police_station")]

/-- `type_map.get(vehicle_type.lower())` (`pathfinding.py` line 117). -/
def lookup_type (vehicle_type : String) : Option String :=
  (type_map.find? (fun p => p.1 == pyLower vehicle_type)).map Prod.snd

/-- The exceptions `find_optimal_route` can raise. -/
inductive RouteError where
  | noGraphLoaded
  | invalidVehicleType
  | noFacilities
  | noValidRoute
  | nodeLookupFailed
deriving DecidableEq

/-- `_process_location` (`pathfinding.py` lines 157–160): the worker task
submitted for one facility. -/
noncomputable def _process_location (g : Graph) (start_node : ℕ)
    (loc : Location) (traffic_weights : Option TrafficWeights) :
    (Option (List ℕ) × Option ℚ) × Location :=
  match _get_nearest_node g loc.lat loc.lon with
  | some end_node =>
    ((_calculate_route g start_node end_node traffic_weights).1, loc)
  | none => ((none, none), loc)

/-- The fan-in reduction step (`pathfinding.py` lines 141–146):
`if route and length < best_length` with `best_length` starting at
infinity; a strict `<` keeps the earlier facility on ties. -/
def pick_best (best : Option (List ℕ × ℚ × Location))
    (c : (Option (List ℕ) × Option ℚ) × Location) :
    Option (List ℕ × ℚ × Location) :=
  match c.1.1, c.1.2 with
  | some route, some len =>
    if (!route.isEmpty) && (match best with
        | none => true
        | some b => decide (len < b.2.1)) then
      some (route, len, c.2)
    else best
  | _, _ => best

/-- `find_optimal_route` (`pathfinding.py` lines 102–155).  The
`ThreadPoolExecutor` fan-out submits one `_process_location` per
registered facility and the fan-in loop reads every `future.result()`
in submission order, so it is embedded as the in-order fold of
`pick_best` over all per-facility results.  `if not self._graph:` is
falsy both for `None` and for a loaded graph with no nodes. -/
noncomputable def find_optimal_route (pf : PathFinder)
    (current_lat current_lon : ℚ) (vehicle_type : String)
    (traffic_weights : Option TrafficWeights) :
    Except RouteError (List (ℚ × ℚ) × Location) :=
  match pf.graph with
  | none => Except.error RouteError.noGraphLoaded
  | some g =>
    if g.nodes.isEmpty then Except.error RouteError.noGraphLoaded
    else
      match lookup_type vehicle_type with
      | none => Except.error RouteError.invalidVehicleType
      | some location_type =>
        if (locationsOf pf location_type).isEmpty then
          Except.error RouteError.noFacilities
        else
          match _get_nearest_node g current_lat current_lon with
          | none => Except.error RouteError.nodeLookupFailed
          | some start_node =>
            match ((locationsOf pf location_type).map
                (fun loc => _process_location g start_node loc traffic_weights)).foldl
                pick_best none with
            | none => Except.error RouteError.noValidRoute
            | some best => Except.ok (best.1.map (node_coords g), best.2.2)

/-! ### C9: the per-edge cost is `base_travel_time * snapshot.weight(edge_id, 1.0)` -/

/-- Specification-side definition (for comparison with `weight_func`):
`snapshot.weight(edge_id, default=1.0)` — the snapshot's multiplier for
the edge's identifier, `1.0` when the identifier (or every listed
identifier) is absent. -/
def snapshot_weight (tw : TrafficWeights) : OsmId → ℚ
  | OsmId.one k => (twGet tw k).getD 1
  | OsmId.many ks =>
    match ks.find? (fun oid => (twGet tw oid).isSome) with
    | some oid => (twGet tw oid).getD 1
    | none => 1
  | OsmId.missing => 1

/-- C9. For every edge and snapshot, `weight_func` returns the edge's
base travel time multiplied by the snapshot's weight for the edge's
identifier, with default multiplier `1.0` when the identifier is absent
(`weight_func` is a plain function of its two arguments — no state). -/
theorem C9_weight_func_eq_base_mul_snapshot_weight
    (d : EdgeData) (tw : TrafficWeights) :
    weight_func d tw = d.travel_time.getD 1 * snapshot_weight tw d.osmid ∧
    snapshot_weight tw OsmId.missing = 1 ∧
    (∀ k, twGet tw k = none → snapshot_weight tw (OsmId.one k) = 1) := by
  refine ⟨?_, rfl, ?_⟩
  · unfold weight_func snapshot_weight
    cases d.osmid with
    | one k => rfl
    | many ks =>
      cases h : ks.find? (fun oid => (twGet tw oid).isSome) with
      | some oid => simp [h]
      | none => simp [h]
    | missing => rfl
  · intro k hk
    simp [snapshot_weight, hk]

/-- C9 witness: a concrete edge with `travel_time = 10`, id `5`, snapshot
`[(5, 2)]`, and the default case at the absent id `7`. -/
theorem C9_weight_func_witness :
    weight_func ⟨some 10, OsmId.one 5, none⟩ [(5, 2)] =
      (Option.some (10 : ℚ)).getD 1 * snapshot_weight [(5, 2)] (OsmId.one 5) ∧
    snapshot_weight [(5, 2)] (OsmId.one 7) = 1 :=
  ⟨(C9_weight_func_eq_base_mul_snapshot_weight ⟨some 10, OsmId.one 5, none⟩ [(5, 2)]).1,
   (C9_weight_func_eq_base_mul_snapshot_weight ⟨some 10, OsmId.one 7, none⟩ [(5, 2)]).2.2
     7 rfl⟩

/-! ### C2: `_calculate_route` never mutates the shared graph -/

/-- The graph an in-place traffic-weighting pass would have produced:
every edge's `travel_time` overwritten with its traffic-weighted cost.
Used only to state C2: the code computes the same route as this mutated
copy would, while leaving the shared graph untouched. -/
def apply_weights (g : Graph) (tw : TrafficWeights) : Graph :=
  ⟨g.nodes, g.edges.map (fun e =>
    ⟨e.u, e.v, ⟨some (weight_func e.data tw), e.data.osmid, e.data.length⟩⟩)⟩

lemma weight_func_empty (d : EdgeData) : weight_func d [] = d.travel_time.getD 1 := by
  obtain ⟨tt, osm, len⟩ := d
  cases osm with
  | one k => simp [weight_func, twGet]
  | many ks =>
    have h : ks.find? (fun oid => (twGet [] oid).isSome) = none :=
      List.find?_eq_none.2 (fun oid _ => by simp [twGet])
    simp [weight_func, h]
  | missing => simp [weight_func]

lemma edge_cost_apply (tw : TrafficWeights) (d : EdgeData) :
    edge_cost none (⟨some (weight_func d tw), d.osmid, d.length⟩ : EdgeData) =
      edge_cost (some tw) d := by
  unfold edge_cost
  cases htw : tw.isEmpty with
  | true =>
    rw [List.isEmpty_iff.1 htw]
    simp [weight_func_empty]
  | false =>
    have hne : tw ≠ [] := fun h => by
      rw [h] at htw; exact absurd htw (by simp)
    simp [htw, hne]

lemma expandEdges_map_congr (f : Edge → Edge) (c1 c2 : EdgeData → ℚ)
    (hu : ∀ e, (f e).u = e.u) (hv : ∀ e, (f e).v = e.v)
    (hc : ∀ e, c2 (f e).data = c1 e.data) :
    ∀ (edges : List Edge) (c : ℚ) (rp : List ℕ) (n : ℕ),
      expandEdges (edges.map f) c2 c rp n = expandEdges edges c1 c rp n := by
  intro edges c rp n
  unfold expandEdges
  induction edges with
  | nil => rfl
  | cons e es ih =>
    simp only [List.map_cons, List.filter_cons, hu e]
    cases he : (e.u == n) with
    | true => simp [hv e, hc e, ih]
    | false => simpa using ih

lemma ucs_map_congr (g g' : Graph) (t : ℕ) (c1 c2 : EdgeData → ℚ)
    (f : Edge → Edge) (hedges : g'.edges = g.edges.map f)
    (hu : ∀ e, (f e).u = e.u) (hv : ∀ e, (f e).v = e.v)
    (hc : ∀ e, c2 (f e).data = c1 e.data) :
    ∀ (fuel : ℕ) (frontier : List (ℚ × List ℕ)) (visited : List ℕ),
      ucs g' t c2 fuel frontier visited = ucs g t c1 fuel frontier visited := by
  intro fuel
  induction fuel with
  | zero => intro frontier visited; rfl
  | succ n ih =>
    intro frontier visited
    unfold ucs
    cases popMinQ frontier with
    | none => rfl
    | some p =>
      obtain ⟨⟨c, rp⟩, rest⟩ := p
      cases rp with
      | nil => rfl
      | cons m mtl =>
        dsimp only
        by_cases hm : m = t
        · simp [hm]
        · rw [if_neg hm, if_neg hm]
          by_cases hv' : m ∈ visited
          · rw [if_pos hv', if_pos hv', ih]
          · rw [if_neg hv', if_neg hv', hedges,
              expandEdges_map_congr f c1 c2 hu hv hc, ih]

lemma shortest_path_apply_weights (g : Graph) (tw : TrafficWeights) (s t : ℕ) :
    shortest_path (apply_weights g tw) s t (edge_cost none) =
      shortest_path g s t (edge_cost (some tw)) := by
  unfold shortest_path apply_weights
  simp only [List.length_map]
  rw [ucs_map_congr g ⟨g.nodes, g.edges.map _⟩ t (edge_cost (some tw))
    (edge_cost none)
    (fun e => ⟨e.u, e.v, ⟨some (weight_func e.data tw), e.data.osmid, e.data.length⟩⟩)
    rfl (fun _ => rfl) (fun _ => rfl) (fun e => edge_cost_apply tw e.data)]

/-- C2. The graph state after `_calculate_route` equals the state before
it (for any snapshot argument), and the traffic weight is applied as a
pure function of edge and snapshot at cost-evaluation time: the route
computed under snapshot `w` equals the route of the
travel-time-premultiplied copy `apply_weights g w`, without the shared
graph ever holding those premultiplied costs. -/
theorem C2_calculate_route_frame (g : Graph) (s t : ℕ) (w : TrafficWeights) :
    (∀ tw : Option TrafficWeights, (_calculate_route g s t tw).2 = g) ∧
    (_calculate_route g s t (some w)).1.1 =
      (_calculate_route (apply_weights g w) s t none).1.1 := by
  constructor
  · intro tw
    unfold _calculate_route
    cases shortest_path g s t (edge_cost tw) <;> rfl
  · unfold _calculate_route
    rw [shortest_path_apply_weights]
    cases shortest_path g s t (edge_cost (some w)) <;> rfl

/-! ### Soundness of the shortest-path search: returned routes run from
the source to the target. -/

lemma popMinQ_mem :
    ∀ (l : List (ℚ × List ℕ)) (e : ℚ × List ℕ) (rest : List (ℚ × List ℕ)),
      popMinQ l = some (e, rest) → e ∈ l ∧ ∀ x ∈ rest, x ∈ l := by
  intro l
  induction l with
  | nil => intro e rest h; cases h
  | cons a tl ih =>
    intro e rest h
    unfold popMinQ at h
    cases hp : popMinQ tl with
    | none =>
      rw [hp] at h
      simp only [Option.some.injEq, Prod.mk.injEq] at h
      obtain ⟨rfl, rfl⟩ := h
      exact ⟨List.mem_cons_self a tl, fun x hx => absurd hx (List.not_mem_nil x)⟩
    | some pr =>
      obtain ⟨m, others⟩ := pr
      rw [hp] at h
      dsimp only at h
      by_cases hle : a.1 ≤ m.1
      · rw [if_pos hle] at h
        simp only [Option.some.injEq, Prod.mk.injEq] at h
        obtain ⟨rfl, rfl⟩ := h
        exact ⟨List.mem_cons_self a tl, fun x hx => List.mem_cons_of_mem a hx⟩
      · rw [if_neg hle] at h
        simp only [Option.some.injEq, Prod.mk.injEq] at h
        obtain ⟨rfl, rfl⟩ := h
        obtain ⟨hm, hsub⟩ := ih _ others hp
        refine ⟨List.mem_cons_of_mem a hm, ?_⟩
        intro x hx
        rcases List.mem_cons.1 hx with rfl | hx'
        · exact List.mem_cons_self x tl
        · exact List.mem_cons_of_mem a (hsub x hx')

lemma ucs_sound (g : Graph) (t : ℕ) (cost : EdgeData → ℚ) (s : ℕ) :
    ∀ (fuel : ℕ) (frontier : List (ℚ × List ℕ)) (visited : List ℕ)
      (p : List ℕ),
      (∀ e ∈ frontier, e.2 ≠ [] ∧ e.2.getLast? = some s) →
      ucs g t cost fuel frontier visited = some p →
      p ≠ [] ∧ p.head? = some s ∧ p.getLast? = some t := by
  intro fuel
  induction fuel with
  | zero => intro _ _ _ _ h; cases h
  | succ n ih =>
    intro frontier visited p hinv h
    unfold ucs at h
    cases hpop : popMinQ frontier with
    | none => rw [hpop] at h; cases h
    | some pr =>
      obtain ⟨⟨c, rp⟩, rest⟩ := pr
      rw [hpop] at h
      obtain ⟨hmem, hrest⟩ := popMinQ_mem frontier _ _ hpop
      have hrp := hinv _ hmem
      cases rp with
      | nil => exact absurd rfl hrp.1
      | cons m mtl =>
        dsimp only at h
        by_cases hm : m = t
        · rw [if_pos hm] at h
          have hp : p = (m :: mtl).reverse := by
            simpa [eq_comm] using h
          subst hp
          refine ⟨by simp, ?_, ?_⟩
          · rw [List.head?_reverse]; exact hrp.2
          · rw [List.getLast?_reverse]; simp [hm]
        · rw [if_neg hm] at h
          by_cases hvv : m ∈ visited
          · rw [if_pos hvv] at h
            exact ih rest visited p (fun e he => hinv e (hrest e he)) h
          · rw [if_neg hvv] at h
            refine ih _ _ p ?_ h
            intro e he
            rcases List.mem_append.1 he with h1 | h2
            · exact hinv e (hrest e h1)
            · unfold expandEdges at h2
              obtain ⟨ed, _, rfl⟩ := List.mem_map.1 h2
              refine ⟨by simp, ?_⟩
              dsimp only
              rw [List.getLast?_cons_cons]
              exact hrp.2

lemma shortest_path_sound (g : Graph) (s t : ℕ) (cost : EdgeData → ℚ)
    (p : List ℕ) (h : shortest_path g s t cost = some p) :
    p ≠ [] ∧ p.head? = some s ∧ p.getLast? = some t := by
  unfold shortest_path at h
  by_cases hc : (g.nodes.any (fun n => n.id == s) &&
      g.nodes.any (fun n => n.id == t)) = true
  · rw [if_pos hc] at h
    refine ucs_sound g t cost s _ _ _ p ?_ h
    intro e he
    rcases List.mem_singleton.1 he with rfl
    exact ⟨by simp, rfl⟩
  · rw [if_neg hc] at h; cases h

lemma calculate_route_route_sound (g : Graph) (sn en : ℕ)
    (tw : Option TrafficWeights) (p : List ℕ)
    (h : (_calculate_route g sn en tw).1.1 = some p) :
    p ≠ [] ∧ p.head? = some sn ∧ p.getLast? = some en := by
  unfold _calculate_route at h
  cases hsp : shortest_path g sn en (edge_cost tw) with
  | none => rw [hsp] at h; cases h
  | some q =>
    rw [hsp] at h
    simp only [Option.some.injEq] at h
    subst h
    exact shortest_path_sound g sn en (edge_cost tw) _ hsp

/-! ### Characterisation of the fan-in reduction `pick_best` -/

/-- A per-facility result that passes the `if route and length < best_length`
guard: a non-empty route together with its length. -/
def CandIs (c : (Option (List ℕ) × Option ℚ) × Location)
    (r : List ℕ) (len : ℚ) : Prop :=
  c.1 = (some r, some len) ∧ r ≠ []

/-- A per-facility result holding some admissible candidate. -/
def Adm (c : (Option (List ℕ) × Option ℚ) × Location) : Prop :=
  ∃ r len, CandIs c r len

lemma CandIs_inj {c : (Option (List ℕ) × Option ℚ) × Location}
    {r len r' len'} (h : CandIs c r len) (h' : CandIs c r' len') :
    r = r' ∧ len = len' := by
  obtain ⟨h1, _⟩ := h
  obtain ⟨h1', _⟩ := h'
  rw [h1] at h1'
  simp only [Prod.mk.injEq, Option.some.injEq] at h1'
  exact h1'

lemma pick_best_not_adm (acc : Option (List ℕ × ℚ × Location))
    (c : (Option (List ℕ) × Option ℚ) × Location) (h : ¬ Adm c) :
    pick_best acc c = acc := by
  obtain ⟨⟨ro, lo⟩, loc⟩ := c
  cases ro with
  | none => rfl
  | some r =>
    cases lo with
    | none => rfl
    | some len =>
      have hr : r.isEmpty = true := by
        cases hre : r.isEmpty with
        | true => rfl
        | false =>
          refine absurd ⟨r, len, rfl, fun hnil => ?_⟩ h
          rw [hnil] at hre
          cases hre
      unfold pick_best
      simp [hr]

lemma pick_best_cand_none {c : (Option (List ℕ) × Option ℚ) × Location}
    {r : List ℕ} {len : ℚ} (h : CandIs c r len) :
    pick_best none c = some (r, len, c.2) := by
  obtain ⟨⟨ro, lo⟩, loc⟩ := c
  obtain ⟨h1, h2⟩ := h
  simp only [Prod.mk.injEq] at h1
  obtain ⟨rfl, rfl⟩ := h1
  have hre : r.isEmpty = false := by
    cases hre : r.isEmpty with
    | false => rfl
    | true => exact absurd (List.isEmpty_iff.1 hre) h2
  unfold pick_best
  simp [hre]

lemma pick_best_cand_some {c : (Option (List ℕ) × Option ℚ) × Location}
    {r : List ℕ} {len : ℚ} (bb : List ℕ × ℚ × Location) (h : CandIs c r len) :
    pick_best (some bb) c =
      if len < bb.2.1 then some (r, len, c.2) else some bb := by
  obtain ⟨⟨ro, lo⟩, loc⟩ := c
  obtain ⟨h1, h2⟩ := h
  simp only [Prod.mk.injEq] at h1
  obtain ⟨rfl, rfl⟩ := h1
  have hre : r.isEmpty = false := by
    cases hre : r.isEmpty with
    | false => rfl
    | true => exact absurd (List.isEmpty_iff.1 hre) h2
  unfold pick_best
  by_cases hlt : len < bb.2.1 <;> simp [hre, hlt]

lemma foldl_pick_best_none :
    ∀ (l : List ((Option (List ℕ) × Option ℚ) × Location))
      (acc : Option (List ℕ × ℚ × Location)),
      l.foldl pick_best acc = none ↔ acc = none ∧ ∀ c ∈ l, ¬ Adm c := by
  intro l
  induction l with
  | nil => intro acc; simp
  | cons c tl ih =>
    intro acc
    rw [List.foldl_cons, ih]
    constructor
    · rintro ⟨h1, h2⟩
      by_cases hadm : Adm c
      · exfalso
        obtain ⟨r, len, hc⟩ := hadm
        cases acc with
        | none => rw [pick_best_cand_none hc] at h1; cases h1
        | some bb =>
          rw [pick_best_cand_some bb hc] at h1
          by_cases hlt : len < bb.2.1
          · rw [if_pos hlt] at h1; cases h1
          · rw [if_neg hlt] at h1; cases h1
      · rw [pick_best_not_adm acc c hadm] at h1
        refine ⟨h1, fun x hx => ?_⟩
        rcases List.mem_cons.1 hx with rfl | hx'
        · exact hadm
        · exact h2 x hx'
    · rintro ⟨rfl, h2⟩
      have hadm : ¬ Adm c := h2 c (List.mem_cons_self c tl)
      rw [pick_best_not_adm none c hadm]
      exact ⟨rfl, fun x hx => h2 x (List.mem_cons_of_mem c hx)⟩

/-- The fold of `pick_best` over the per-facility results returns the
earliest candidate of minimal length: its length is a lower bound for
every admissible candidate, every earlier admissible candidate is
strictly longer, and (when the result did not come from the accumulator)
the winning index is exhibited. -/
lemma foldl_pick_best_some :
    ∀ (l : List ((Option (List ℕ) × Option ℚ) × Location))
      (acc : Option (List ℕ × ℚ × Location)) (b : List ℕ × ℚ × Location),
      l.foldl pick_best acc = some b →
      (∀ c ∈ l, ∀ r len, CandIs c r len → b.2.1 ≤ len) ∧
      (acc = some b ∨
        ∃ (k : ℕ) (hk : k < l.length),
          CandIs (l.get ⟨k, hk⟩) b.1 b.2.1 ∧
          b.2.2 = (l.get ⟨k, hk⟩).2 ∧
          (∀ (i : ℕ) (hi : i < k), ∀ r' len',
            CandIs (l.get ⟨i, lt_trans hi hk⟩) r' len' → b.2.1 < len') ∧
          (∀ bb, acc = some bb → b.2.1 < bb.2.1)) := by
  intro l
  induction l with
  | nil =>
    intro acc b h
    simp only [List.foldl_nil] at h
    exact ⟨fun c hc => absurd hc (List.not_mem_nil c), Or.inl h⟩
  | cons c tl ih =>
    intro acc b h
    rw [List.foldl_cons] at h
    obtain ⟨hmin_tl, hsrc⟩ := ih (pick_best acc c) b h
    by_cases hadm : Adm c
    · obtain ⟨r0, len0, hc0⟩ := hadm
      have hcmin : ∀ r len, CandIs c r len → len = len0 :=
        fun r len hc => (CandIs_inj hc hc0).2
      cases acc with
      | none =>
        rw [pick_best_cand_none hc0] at hsrc
        rcases hsrc with hb | ⟨k, hk, h1, h2, h3, h4⟩
        · have hb' : b = (r0, len0, c.2) := by
            simpa [eq_comm] using hb
          subst hb'
          refine ⟨?_, Or.inr ⟨0, Nat.succ_pos _, ⟨hc0.1, hc0.2⟩, rfl, ?_, ?_⟩⟩
          · intro x hx r len hc
            rcases List.mem_cons.1 hx with rfl | hx'
            · rw [hcmin r len hc]
            · exact hmin_tl x hx' r len hc
          · intro i hi; exact absurd hi (Nat.not_lt_zero i)
          · intro bb hbb; cases hbb
        · have hlt0 : b.2.1 < len0 := by
            simpa using h4 (r0, len0, c.2) rfl
          refine ⟨?_, Or.inr ⟨k + 1, Nat.succ_lt_succ hk, ?_, ?_, ?_, ?_⟩⟩
          · intro x hx r len hc
            rcases List.mem_cons.1 hx with rfl | hx'
            · rw [hcmin r len hc]; exact le_of_lt hlt0
            · exact hmin_tl x hx' r len hc
          · simpa using h1
          · simpa using h2
          · intro i hi r' len' hci
            cases i with
            | zero =>
              rw [hcmin r' len' (by simpa using hci)]
              exact hlt0
            | succ j =>
              exact h3 j (Nat.lt_of_succ_lt_succ hi) r' len' (by simpa using hci)
          · intro bb hbb; cases hbb
      | some bb0 =>
        rw [pick_best_cand_some bb0 hc0] at hsrc
        by_cases hlt : len0 < bb0.2.1
        · rw [if_pos hlt] at hsrc
          rcases hsrc with hb | ⟨k, hk, h1, h2, h3, h4⟩
          · have hb' : b = (r0, len0, c.2) := by
              simpa [eq_comm] using hb
            subst hb'
            refine ⟨?_, Or.inr ⟨0, Nat.succ_pos _, ⟨hc0.1, hc0.2⟩, rfl, ?_, ?_⟩⟩
            · intro x hx r len hc
              rcases List.mem_cons.1 hx with rfl | hx'
              · rw [hcmin r len hc]
              · exact hmin_tl x hx' r len hc
            · intro i hi; exact absurd hi (Nat.not_lt_zero i)
            · intro bb hbb
              have : bb = bb0 := by simpa [eq_comm] using hbb
              subst this
              exact hlt
          · have hlt0 : b.2.1 < len0 := by
              simpa using h4 (r0, len0, c.2) rfl
            refine ⟨?_, Or.inr ⟨k + 1, Nat.succ_lt_succ hk, ?_, ?_, ?_, ?_⟩⟩
            · intro x hx r len hc
              rcases List.mem_cons.1 hx with rfl | hx'
              · rw [hcmin r len hc]; exact le_of_lt hlt0
              · exact hmin_tl x hx' r len hc
            · simpa using h1
            · simpa using h2
            · intro i hi r' len' hci
              cases i with
              | zero =>
                rw [hcmin r' len' (by simpa using hci)]
                exact hlt0
              | succ j =>
                exact h3 j (Nat.lt_of_succ_lt_succ hi) r' len' (by simpa using hci)
            · intro bb hbb
              have : bb = bb0 := by simpa [eq_comm] using hbb
              subst this
              exact lt_trans hlt0 hlt
        · rw [if_neg hlt] at hsrc
          have hge : bb0.2.1 ≤ len0 := not_lt.1 hlt
          rcases hsrc with hb | ⟨k, hk, h1, h2, h3, h4⟩
          · have hb' : b = bb0 := by simpa [eq_comm] using hb
            subst hb'
            refine ⟨?_, Or.inl rfl⟩
            intro x hx r len hc
            rcases List.mem_cons.1 hx with rfl | hx'
            · rw [hcmin r len hc]; exact hge
            · exact hmin_tl x hx' r len hc
          · have hlt0 : b.2.1 < bb0.2.1 := by
              simpa using h4 bb0 rfl
            refine ⟨?_, Or.inr ⟨k + 1, Nat.succ_lt_succ hk, ?_, ?_, ?_, ?_⟩⟩
            · intro x hx r len hc
              rcases List.mem_cons.1 hx with rfl | hx'
              · rw [hcmin r len hc]; exact le_of_lt (lt_of_lt_of_le hlt0 hge)
              · exact hmin_tl x hx' r len hc
            · simpa using h1
            · simpa using h2
            · intro i hi r' len' hci
              cases i with
              | zero =>
                rw [hcmin r' len' (by simpa using hci)]
                exact lt_of_lt_of_le hlt0 hge
              | succ j =>
                exact h3 j (Nat.lt_of_succ_lt_succ hi) r' len' (by simpa using hci)
            · intro bb hbb
              have : bb = bb0 := by simpa [eq_comm] using hbb
              subst this
              exact hlt0
    · rw [pick_best_not_adm acc c hadm] at hsrc
      refine ⟨?_, ?_⟩
      · intro x hx r len hc
        rcases List.mem_cons.1 hx with rfl | hx'
        · exact absurd ⟨r, len, hc⟩ hadm
        · exact hmin_tl x hx' r len hc
      · rcases hsrc with hacc | ⟨k, hk, h1, h2, h3, h4⟩
        · exact Or.inl hacc
        · refine Or.inr ⟨k + 1, Nat.succ_lt_succ hk, ?_, ?_, ?_, h4⟩
          · simpa using h1
          · simpa using h2
          · intro i hi r' len' hci
            cases i with
            | zero => exact absurd ⟨r', len', by simpa using hci⟩ hadm
            | succ j =>
              exact h3 j (Nat.lt_of_succ_lt_succ hi) r' len' (by simpa using hci)

lemma _process_location_snd (g : Graph) (sn : ℕ) (loc : Location)
    (tw : Option TrafficWeights) :
    (_process_location g sn loc tw).2 = loc := by
  unfold _process_location
  cases _get_nearest_node g loc.lat loc.lon <;> rfl

lemma get_map_aux {α β : Type} (f : α → β) (l : List α) (k : ℕ)
    (hk : k < (l.map f).length) :
    (l.map f).get ⟨k, hk⟩ = f (l.get ⟨k, by simpa using hk⟩) := by
  simp [List.get_eq_getElem]

lemma find_optimal_route_unfold (pf : PathFinder) (g : Graph) (lt : String)
    (sn : ℕ) (clat clon : ℚ) (vt : String) (tw : Option TrafficWeights)
    (hg : pf.graph = some g) (hn : g.nodes.isEmpty = false)
    (hlt : lookup_type vt = some lt)
    (hfac : (locationsOf pf lt).isEmpty = false)
    (hsn : _get_nearest_node g clat clon = some sn) :
    find_optimal_route pf clat clon vt tw =
      match ((locationsOf pf lt).map
          (fun loc => _process_location g sn loc tw)).foldl pick_best none with
      | none => Except.error RouteError.noValidRoute
      | some best => Except.ok (best.1.map (node_coords g), best.2.2) := by
  unfold find_optimal_route
  rw [hg]
  dsimp only
  rw [if_neg (by rw [hn]; simp), hlt]
  dsimp only
  rw [if_neg (by rw [hfac]; simp), hsn]

/-- C1. With a loaded non-empty graph, a recognised vehicle type and at
least one facility of the matching type, the router evaluates one path
search per registered facility (the fan-in reads every future's result:
the minimality clause below quantifies over all of them) and, when at
least one candidate search yields a route, it returns the candidate of
minimal total length, ties broken in favour of the earliest-registered
facility: every admissible candidate is at least as long and every
earlier-registered admissible candidate is strictly longer. -/
theorem C1_find_optimal_route_min_earliest (pf : PathFinder) (g : Graph)
    (lt : String) (sn : ℕ) (clat clon : ℚ) (vt : String)
    (tw : Option TrafficWeights)
    (hg : pf.graph = some g) (hn : g.nodes.isEmpty = false)
    (hlt : lookup_type vt = some lt)
    (hfac : (locationsOf pf lt).isEmpty = false)
    (hsn : _get_nearest_node g clat clon = some sn)
    (j : ℕ) (hj : j < (locationsOf pf lt).length)
    (hadm : Adm (_process_location g sn ((locationsOf pf lt).get ⟨j, hj⟩) tw)) :
    ∃ (k : ℕ) (hk : k < (locationsOf pf lt).length) (r : List ℕ) (len : ℚ),
      CandIs (_process_location g sn ((locationsOf pf lt).get ⟨k, hk⟩) tw) r len ∧
      find_optimal_route pf clat clon vt tw =
        Except.ok (r.map (node_coords g), (locationsOf pf lt).get ⟨k, hk⟩) ∧
      (∀ (i : ℕ) (hi : i < (locationsOf pf lt).length) (r' : List ℕ) (len' : ℚ),
        CandIs (_process_location g sn ((locationsOf pf lt).get ⟨i, hi⟩) tw)
          r' len' → len ≤ len') ∧
      (∀ (i : ℕ) (hi : i < k) (r' : List ℕ) (len' : ℚ),
        CandIs (_process_location g sn
          ((locationsOf pf lt).get ⟨i, lt_trans hi hk⟩) tw) r' len' →
          len < len') := by
  have hrw := find_optimal_route_unfold pf g lt sn clat clon vt tw
    hg hn hlt hfac hsn
  cases hfold : ((locationsOf pf lt).map
      (fun loc => _process_location g sn loc tw)).foldl pick_best none with
  | none =>
    exfalso
    obtain ⟨-, hall⟩ := (foldl_pick_best_none _ none).1 hfold
    refine hall (_process_location g sn ((locationsOf pf lt).get ⟨j, hj⟩) tw)
      ?_ hadm
    exact List.mem_map.2 ⟨_, List.get_mem _ j hj, rfl⟩
  | some b =>
    obtain ⟨hmin, hsrc⟩ := foldl_pick_best_some _ none b hfold
    rcases hsrc with hacc | ⟨k, hk, h1, h2, h3, -⟩
    · cases hacc
    · have hk' : k < (locationsOf pf lt).length := by simpa using hk
      refine ⟨k, hk', b.1, b.2.1, ?_, ?_, ?_, ?_⟩
      · rw [get_map_aux] at h1
        exact h1
      · rw [hrw, hfold]
        dsimp only
        rw [get_map_aux] at h2
        rw [h2, _process_location_snd]
      · intro i hi r' len' hci
        refine hmin _ ?_ r' len' hci
        exact List.mem_map.2 ⟨_, List.get_mem _ i hi, rfl⟩
      · intro i hi r' len' hci
        refine h3 i hi r' len' ?_
        rw [get_map_aux]
        exact hci

/-- C1 witness: a one-node graph with two hospitals mapping to the same
node; both candidates tie at length 0 and the earlier-registered hospital
wins. -/
theorem C1_find_optimal_route_witness :
    ∃ (k : ℕ)
      (hk : k < (locationsOf
        ⟨some ⟨[⟨1, 10, 20⟩], []⟩,
         [("hospital",
           [⟨"A", 10, 20, "hospital"⟩, ⟨"B", 10, 20, "hospital"⟩]),
          ("fire_station", []), ("police_station", [])]⟩ "hospital").length)
      (r : List ℕ) (len : ℚ),
      CandIs (_process_location ⟨[⟨1, 10, 20⟩], []⟩ 1
        ((locationsOf
          ⟨some ⟨[⟨1, 10, 20⟩], []⟩,
           [("hospital",
             [⟨"A", 10, 20, "hospital"⟩, ⟨"B", 10, 20, "hospital"⟩]),
            ("fire_station", []), ("police_station", [])]⟩ "hospital").get
          ⟨k, hk⟩) none) r len ∧
      find_optimal_route
        ⟨some ⟨[⟨1, 10, 20⟩], []⟩,
         [("hospital",
           [⟨"A", 10, 20, "hospital"⟩, ⟨"B", 10, 20, "hospital"⟩]),
          ("fire_station", []), ("police_station", [])]⟩ 10 20 "ambulance" none =
        Except.ok (r.map (node_coords ⟨[⟨1, 10, 20⟩], []⟩),
          (locationsOf
            ⟨some ⟨[⟨1, 10, 20⟩], []⟩,
             [("hospital",
               [⟨"A", 10, 20, "hospital"⟩, ⟨"B", 10, 20, "hospital"⟩]),
              ("fire_station", []), ("police_station", [])]⟩ "hospital").get
            ⟨k, hk⟩) ∧
      (∀ (i : ℕ)
        (hi : i < (locationsOf
          ⟨some ⟨[⟨1, 10, 20⟩], []⟩,
           [("hospital",
             [⟨"A", 10, 20, "hospital"⟩, ⟨"B", 10, 20, "hospital"⟩]),
            ("fire_station", []), ("police_station", [])]⟩ "hospital").length)
        (r' : List ℕ) (len' : ℚ),
        CandIs (_process_location ⟨[⟨1, 10, 20⟩], []⟩ 1
          ((locationsOf
            ⟨some ⟨[⟨1, 10, 20⟩], []⟩,
             [("hospital",
               [⟨"A", 10, 20, "hospital"⟩, ⟨"B", 10, 20, "hospital"⟩]),
              ("fire_station", []), ("police_station", [])]⟩ "hospital").get
            ⟨i, hi⟩) none) r' len' → len ≤ len') ∧
      (∀ (i : ℕ) (hi : i < k) (r' : List ℕ) (len' : ℚ),
        CandIs (_process_location ⟨[⟨1, 10, 20⟩], []⟩ 1
          ((locationsOf
            ⟨some ⟨[⟨1, 10, 20⟩], []⟩,
             [("hospital",
               [⟨"A", 10, 20, "hospital"⟩, ⟨"B", 10, 20, "hospital"⟩]),
              ("fire_station", []), ("police_station", [])]⟩ "hospital").get
            ⟨i, lt_trans hi hk⟩) none) r' len' → len < len') :=
  C1_find_optimal_route_min_earliest _ ⟨[⟨1, 10, 20⟩], []⟩ "hospital" 1 10 20
    "ambulance" none rfl rfl (by decide) (by decide) rfl 0 (by decide)
    ⟨[1], 0, rfl, by decide⟩

/-- C5 counterexample: the string "POLICE" is outside the claim's set
of recognized strings (ambulance, fire_engine, police), yet routing
succeeds — the code lowercases the vehicle type first and maps it to a
police station instead of failing with an invalid-vehicle-type error. -/
theorem C5_counterexample :
    find_optimal_route
      ⟨some ⟨[⟨1, 5, 6⟩], []⟩,
       [("hospital", []), ("fire_station", []),
        ("police_station", [⟨"HQ", 5, 6, "police_station"⟩])]⟩
      5 6 "POLICE" none =
      Except.ok ([(5, 6)], ⟨"HQ", 5, 6, "police_station"⟩) ∧
    ∀ e : RouteError,
      (Except.ok ([((5 : ℚ), (6 : ℚ))], (⟨"HQ", 5, 6, "police_station"⟩ : Location)) :
        Except RouteError (List (ℚ × ℚ) × Location)) ≠ Except.error e :=
  ⟨rfl, fun _ h => Except.noConfusion h⟩

/-- C5 (amended): vehicle-type matching is case-insensitive: with a
loaded non-empty graph, routing fails with the invalid-vehicle-type
error for every vehicle-type string whose lowercase form is outside
(ambulance, fire_engine, police), and never silently defaults; the
lowercased recognized strings map ambulance→hospital,
fire_engine→fire_station and police→police_station. -/
theorem C5_invalid_vehicle_type_lowercase (pf : PathFinder) (g : Graph)
    (clat clon : ℚ) (vt : String) (tw : Option TrafficWeights)
    (hg : pf.graph = some g) (hn : g.nodes.isEmpty = false)
    (hvt : pyLower vt ∉ ["ambulance", "fire_engine", "police"]) :
    find_optimal_route pf clat clon vt tw =
      Except.error RouteError.invalidVehicleType ∧
    lookup_type "ambulance" = some "hospital" ∧
    lookup_type "fire_engine" = some "fire_station" ∧
    lookup_type "police" = some "police_station" := by
  refine ⟨?_, by decide, by decide, by decide⟩
  have hnone : lookup_type vt = none := by
    unfold lookup_type
    rw [List.find?_eq_none.2 ?_]
    · rfl
    · intro p hp
      simp only [type_map, List.mem_cons, List.not_mem_nil, or_false] at hp
      have hne : p.1 ≠ pyLower vt := by
        rcases hp with rfl | rfl | rfl <;>
          exact fun h => hvt (by rw [← h]; simp)
      simpa using hne
  unfold find_optimal_route
  rw [hg]
  dsimp only
  rw [if_neg (by rw [hn]; simp), hnone]

/-- C5 amended-claim witness: the spec's example string "spaceship". -/
theorem C5_invalid_vehicle_type_witness :
    find_optimal_route
      ⟨some ⟨[⟨1, 5, 6⟩], []⟩,
       [("hospital", []), ("fire_station", []),
        ("police_station", [⟨"HQ", 5, 6, "police_station"⟩])]⟩
      5 6 "spaceship" none = Except.error RouteError.invalidVehicleType ∧
    lookup_type "ambulance" = some "hospital" ∧
    lookup_type "fire_engine" = some "fire_station" ∧
    lookup_type "police" = some "police_station" :=
  C5_invalid_vehicle_type_lowercase _ ⟨[⟨1, 5, 6⟩], []⟩ 5 6 "spaceship" none
    rfl rfl (by decide)

/-- C6 counterexample: a one-node graph at (50, 60), request at (3, 4),
hospital registered at (1, 2).  The returned route is [(50, 60)]: its
first point is the nearest graph node, not the request's coordinate, and
its last point is likewise not the facility's location. -/
theorem C6_counterexample :
    find_optimal_route
      ⟨some ⟨[⟨7, 50, 60⟩], []⟩,
       [("hospital", [⟨"H", 1, 2, "hospital"⟩]), ("fire_station", []),
        ("police_station", [])]⟩ 3 4 "ambulance" none =
      Except.ok ([(50, 60)], ⟨"H", 1, 2, "hospital"⟩) ∧
    (((50 : ℚ), (60 : ℚ)) ≠ ((3 : ℚ), (4 : ℚ))) ∧
    (((50 : ℚ), (60 : ℚ)) ≠ ((1 : ℚ), (2 : ℚ))) :=
  ⟨rfl, by decide, by decide⟩

/-- C6 (amended): every successful route starts at the coordinates of
the graph node nearest the request's current position and ends at the
coordinates of the graph node nearest the chosen facility's location
(not, in general, at the raw request/facility coordinates themselves). -/
theorem C6_route_endpoints_nearest_nodes (pf : PathFinder) (g : Graph)
    (lt : String) (sn : ℕ) (clat clon : ℚ) (vt : String)
    (tw : Option TrafficWeights) (coords : List (ℚ × ℚ)) (loc : Location)
    (hg : pf.graph = some g) (hn : g.nodes.isEmpty = false)
    (hlt : lookup_type vt = some lt)
    (hfac : (locationsOf pf lt).isEmpty = false)
    (hsn : _get_nearest_node g clat clon = some sn)
    (hres : find_optimal_route pf clat clon vt tw = Except.ok (coords, loc)) :
    ∃ en, _get_nearest_node g loc.lat loc.lon = some en ∧
      coords.head? = some (node_coords g sn) ∧
      coords.getLast? = some (node_coords g en) := by
  rw [find_optimal_route_unfold pf g lt sn clat clon vt tw hg hn hlt hfac hsn]
    at hres
  cases hfold : ((locationsOf pf lt).map
      (fun loc => _process_location g sn loc tw)).foldl pick_best none with
  | none => rw [hfold] at hres; cases hres
  | some b =>
    rw [hfold] at hres
    dsimp only at hres
    simp only [Except.ok.injEq, Prod.mk.injEq] at hres
    obtain ⟨hcoords, hloc⟩ := hres
    obtain ⟨-, hsrc⟩ := foldl_pick_best_some _ none b hfold
    rcases hsrc with hacc | ⟨k, hk, h1, h2, -, -⟩
    · cases hacc
    · rw [get_map_aux] at h1 h2
      rw [_process_location_snd] at h2
      obtain ⟨hpair, -⟩ := h1
      unfold _process_location at hpair
      have hlk : loc = (locationsOf pf lt).get ⟨k, by simpa using hk⟩ :=
        hloc.symm.trans h2
      cases hen : _get_nearest_node g
          ((locationsOf pf lt).get ⟨k, by simpa using hk⟩).lat
          ((locationsOf pf lt).get ⟨k, by simpa using hk⟩).lon with
      | none =>
        rw [hen] at hpair
        simp at hpair
      | some en =>
        rw [hen] at hpair
        dsimp only at hpair
        have hr : (_calculate_route g sn en tw).1.1 = some b.1 := by
          rw [hpair]
        obtain ⟨-, hhead, hlast⟩ :=
          calculate_route_route_sound g sn en tw b.1 hr
        refine ⟨en, ?_, ?_, ?_⟩
        · rw [hlk]
          exact hen
        · rw [← hcoords, List.head?_map, hhead]
          rfl
        · rw [← hcoords, List.getLast?_map, hlast]
          rfl

/-- C6 amended-claim witness at the concrete one-node instance. -/
theorem C6_route_endpoints_witness :
    ∃ en, _get_nearest_node ⟨[⟨7, 50, 60⟩], []⟩ 1 2 = some en ∧
      ([((50 : ℚ), (60 : ℚ))]).head? =
        some (node_coords ⟨[⟨7, 50, 60⟩], []⟩ 7) ∧
      ([((50 : ℚ), (60 : ℚ))]).getLast? =
        some (node_coords ⟨[⟨7, 50, 60⟩], []⟩ en) :=
  C6_route_endpoints_nearest_nodes
    ⟨some ⟨[⟨7, 50, 60⟩], []⟩,
     [("hospital", [⟨"H", 1, 2, "hospital"⟩]), ("fire_station", []),
      ("police_station", [])]⟩
    ⟨[⟨7, 50, 60⟩], []⟩ "hospital" 7 3 4 "ambulance" none
    [(50, 60)] ⟨"H", 1, 2, "hospital"⟩ rfl rfl (by decide) (by decide) rfl rfl

/-! ## PathSearch fallback: `calculate_optimal_path`

`backend/app.py` imports `calculate_optimal_path` from
`utils.pathfinding`, but no definition of it appears in the source tree;
only its callers do.  The definitions below are therefore modelled from
the specification (§4.4 PathSearch state machine, §3 RouteResult). -/

/-- A point of a RouteResult path: position plus traffic density (§3). -/
structure RoutePoint where
  pos : ℝ × ℝ
  traffic_density : ℝ

/-- The RouteResult record (§3); `degraded = true` marks the fallback
direct-line result. -/
structure RouteResult where
  path : List RoutePoint
  total_distance_km : ℝ
  average_traffic_density : ℝ
  degraded : Bool

/-- A search node (§3): position, cost from start, and the materialised
parent back-reference chain (this node's position consed onto its
ancestors', ending at the start). -/
structure SearchNode where
  pos : ℝ × ℝ
  g : ℝ
  rev : List (ℝ × ℝ)

/-- Sum of consecutive-point Haversine distances along a path (§3). -/
noncomputable def path_total (pts : List (ℝ × ℝ)) : ℝ :=
  (pts.zip pts.tail).foldl (fun acc uv => acc + calculate_distance uv.1 uv.2) 0

/-- Modelled from the spec: the degraded two-point direct route between
start and goal returned on budget exhaustion (§4.4), with an estimated
traffic density. -/
noncomputable def degraded_route (density : ℝ × ℝ → ℝ × ℝ → ℝ)
    (start goal : ℝ × ℝ) : RouteResult :=
  { path := [⟨start, density start goal⟩, ⟨goal, density start goal⟩],
    total_distance_km := calculate_distance start goal,
    average_traffic_density := density start goal,
    degraded := true }

/-- Modelled from the spec: path reconstruction on `GOAL_REACHED`
(§4.4): follow the parent chain back to the start, reverse it, annotate
with densities. -/
noncomputable def reached_route (density : ℝ × ℝ → ℝ × ℝ → ℝ)
    (goal : ℝ × ℝ) (n : SearchNode) : RouteResult :=
  let pts := n.rev.reverse
  { path := pts.map (fun p => ⟨p, density p goal⟩),
    total_distance_km := path_total pts,
    average_traffic_density :=
      (pts.map (fun p => density p goal)).sum / pts.length,
    degraded := false }

/-- Pop the open-set node with minimum `f = g + h` (ties to the earlier
insertion, §4.4). -/
noncomputable def popMinNode (goal : ℝ × ℝ) :
    List SearchNode → Option (SearchNode × List SearchNode)
  | [] => none
  | e :: rest =>
    match popMinNode goal rest with
    | none => some (e, [])
    | some (m, others) =>
      if e.g + calculate_distance e.pos goal ≤
          m.g + calculate_distance m.pos goal
      then some (e, rest) else some (m, e :: others)

/-- Lookup of a known `g` value by exact position equality (§3: exact
coordinate equality for duplicate detection). -/
noncomputable def lookupPos (l : List ((ℝ × ℝ) × ℝ)) (p : ℝ × ℝ) :
    Option ℝ :=
  (l.find? (fun q => decide (q.1 = p))).map Prod.snd

/-- Modelled from the spec: relaxation of one neighbour (§4.4): insert or
improve when unseen or when the tentative cost beats the known `g`. -/
noncomputable def relax (cur : SearchNode)
    (st : List SearchNode × List ((ℝ × ℝ) × ℝ)) (nb : ℝ × ℝ) :
    List SearchNode × List ((ℝ × ℝ) × ℝ) :=
  let tentative := cur.g + calculate_distance cur.pos nb
  match lookupPos st.2 nb with
  | none => (st.1 ++ [⟨nb, tentative, nb :: cur.rev⟩], (nb, tentative) :: st.2)
  | some gkn =>
    if tentative < gkn then
      (st.1 ++ [⟨nb, tentative, nb :: cur.rev⟩], (nb, tentative) :: st.2)
    else st

/-- Modelled from the spec: the PathSearch loop (§4.4), bounded by the
iteration budget; on exceeding the budget (or an exhausted open set) it
returns the degraded two-point direct route; within the ≈0.1 km goal
radius it returns the reconstructed route. -/
noncomputable def path_search (neighbors : ℝ × ℝ → List (ℝ × ℝ))
    (density : ℝ × ℝ → ℝ × ℝ → ℝ) (start goal : ℝ × ℝ) :
    ℕ → List SearchNode → List ((ℝ × ℝ) × ℝ) → RouteResult
  | 0, _, _ => degraded_route density start goal
  | fuel + 1, openset, gscore =>
    match popMinNode goal openset with
    | none => degraded_route density start goal
    | some (cur, rest) =>
      if calculate_distance cur.pos goal ≤ 0.1 then
        reached_route density goal cur
      else
        path_search neighbors density start goal fuel
          (rest ++ ((neighbors cur.pos).foldl (relax cur) ([], gscore)).1)
          ((neighbors cur.pos).foldl (relax cur) ([], gscore)).2

/-- Modelled from the spec: `calculate_optimal_path` (§4.4/§4.5, the
function `backend/app.py` imports from `utils.pathfinding`), with the
iteration budget and the neighbour/density generators as parameters. -/
noncomputable def calculate_optimal_path (neighbors : ℝ × ℝ → List (ℝ × ℝ))
    (density : ℝ × ℝ → ℝ × ℝ → ℝ) (start goal : ℝ × ℝ) (budget : ℕ) :
    RouteResult :=
  path_search neighbors density start goal budget
    [⟨start, 0, [start]⟩] [(start, 0)]

lemma popMinNode_mem (goal : ℝ × ℝ) :
    ∀ (l : List SearchNode) (e : SearchNode) (rest : List SearchNode),
      popMinNode goal l = some (e, rest) → e ∈ l ∧ ∀ x ∈ rest, x ∈ l := by
  intro l
  induction l with
  | nil => intro e rest h; cases h
  | cons a tl ih =>
    intro e rest h
    unfold popMinNode at h
    cases hp : popMinNode goal tl with
    | none =>
      rw [hp] at h
      simp only [Option.some.injEq, Prod.mk.injEq] at h
      obtain ⟨rfl, rfl⟩ := h
      exact ⟨List.mem_cons_self a tl, fun x hx => absurd hx (List.not_mem_nil x)⟩
    | some pr =>
      obtain ⟨m, others⟩ := pr
      rw [hp] at h
      dsimp only at h
      by_cases hle : a.g + calculate_distance a.pos goal ≤
          m.g + calculate_distance m.pos goal
      · rw [if_pos hle] at h
        simp only [Option.some.injEq, Prod.mk.injEq] at h
        obtain ⟨rfl, rfl⟩ := h
        exact ⟨List.mem_cons_self a tl, fun x hx => List.mem_cons_of_mem a hx⟩
      · rw [if_neg hle] at h
        simp only [Option.some.injEq, Prod.mk.injEq] at h
        obtain ⟨rfl, rfl⟩ := h
        obtain ⟨hm, hsub⟩ := ih _ others hp
        refine ⟨List.mem_cons_of_mem a hm, ?_⟩
        intro x hx
        rcases List.mem_cons.1 hx with rfl | hx'
        · exact List.mem_cons_self x tl
        · exact List.mem_cons_of_mem a (hsub x hx')

lemma relax_fold_mem (cur : SearchNode) :
    ∀ (nbs : List (ℝ × ℝ)) (st : List SearchNode × List ((ℝ × ℝ) × ℝ))
      (x : SearchNode), x ∈ (nbs.foldl (relax cur) st).1 →
      x ∈ st.1 ∨ ∃ nb t, x = ⟨nb, t, nb :: cur.rev⟩ := by
  intro nbs
  induction nbs with
  | nil => intro st x hx; exact Or.inl hx
  | cons nb tl ih =>
    intro st x hx
    rw [List.foldl_cons] at hx
    rcases ih (relax cur st nb) x hx with hmem | hnew
    · unfold relax at hmem
      cases hl : lookupPos st.2 nb with
      | none =>
        rw [hl] at hmem
        dsimp only at hmem
        rcases List.mem_append.1 hmem with h1 | h2
        · exact Or.inl h1
        · rcases List.mem_singleton.1 h2 with rfl
          exact Or.inr ⟨nb, _, rfl⟩
      | some gkn =>
        rw [hl] at hmem
        dsimp only at hmem
        by_cases hlt : cur.g + calculate_distance cur.pos nb < gkn
        · rw [if_pos hlt] at hmem
          rcases List.mem_append.1 hmem with h1 | h2
          · exact Or.inl h1
          · rcases List.mem_singleton.1 h2 with rfl
            exact Or.inr ⟨nb, _, rfl⟩
        · rw [if_neg hlt] at hmem
          exact Or.inl hmem
    · exact Or.inr hnew

lemma path_search_result (neighbors : ℝ × ℝ → List (ℝ × ℝ))
    (density : ℝ × ℝ → ℝ × ℝ → ℝ) (start goal : ℝ × ℝ) :
    ∀ (fuel : ℕ) (openset : List SearchNode)
      (gscore : List ((ℝ × ℝ) × ℝ)),
      (∀ n ∈ openset, n.rev ≠ []) →
      path_search neighbors density start goal fuel openset gscore =
        degraded_route density start goal ∨
      ∃ n : SearchNode, n.rev ≠ [] ∧
        path_search neighbors density start goal fuel openset gscore =
          reached_route density goal n := by
  intro fuel
  induction fuel with
  | zero => intro _ _ _; exact Or.inl rfl
  | succ m ih =>
    intro openset gscore hinv
    unfold path_search
    cases hpop : popMinNode goal openset with
    | none => exact Or.inl rfl
    | some pr =>
      obtain ⟨cur, rest⟩ := pr
      obtain ⟨hmem, hrest⟩ := popMinNode_mem goal openset _ _ hpop
      dsimp only
      by_cases hrad : calculate_distance cur.pos goal ≤ 0.1
      · rw [if_pos hrad]
        exact Or.inr ⟨cur, hinv cur hmem, rfl⟩
      · rw [if_neg hrad]
        refine ih _ _ ?_
        intro n hn
        rcases List.mem_append.1 hn with h1 | h2
        · exact hinv n (hrest n h1)
        · rcases relax_fold_mem cur (neighbors cur.pos) ([], gscore) n h2 with
            h3 | ⟨nb, t, rfl⟩
          · exact absurd h3 (List.not_mem_nil n)
          · simp

/-- C4.  Whenever the budget-bounded path search fails to reach the goal
(budget exhausted or open set emptied), `calculate_optimal_path` returns
the degraded two-point direct route between start and goal instead of
failing — the caller always receives a non-empty route — and with a
budget of 0 the result is degraded with path exactly `[start, goal]`. -/
theorem C4_degraded_two_point_fallback (neighbors : ℝ × ℝ → List (ℝ × ℝ))
    (density : ℝ × ℝ → ℝ × ℝ → ℝ) (start goal : ℝ × ℝ) (budget : ℕ) :
    ((calculate_optimal_path neighbors density start goal budget).degraded =
        true →
      (calculate_optimal_path neighbors density start goal budget).path.map
        RoutePoint.pos = [start, goal]) ∧
    (calculate_optimal_path neighbors density start goal budget).path ≠ [] ∧
    (budget = 0 →
      (calculate_optimal_path neighbors density start goal budget).degraded =
        true ∧
      (calculate_optimal_path neighbors density start goal budget).path.length
        = 2 ∧
      (calculate_optimal_path neighbors density start goal budget).path.map
        RoutePoint.pos = [start, goal]) := by
  have hcases := path_search_result neighbors density start goal budget
    [⟨start, 0, [start]⟩] [(start, 0)]
    (by intro n hn; rcases List.mem_singleton.1 hn with rfl; simp)
  unfold calculate_optimal_path
  rcases hcases with hdeg | ⟨n, hne, hreach⟩
  · rw [hdeg]
    refine ⟨fun _ => rfl, by simp [degraded_route], fun _ => ⟨rfl, rfl, rfl⟩⟩
  · rw [hreach]
    refine ⟨?_, ?_, ?_⟩
    · intro hfalse
      exact absurd hfalse (by simp [reached_route])
    · simp only [reached_route]
      simp [hne]
    · intro h0
      subst h0
      -- budget 0 always yields the degraded result, contradicting hreach
      have : degraded_route density start goal =
          reached_route density goal n := by
        rw [← hreach]; rfl
      exact absurd (congrArg RouteResult.degraded this) (by simp [degraded_route, reached_route])

/-- C4 witness: budget 0 at concrete inputs yields the degraded
two-point route. -/
theorem C4_degraded_witness :
    (calculate_optimal_path (fun _ => []) (fun _ _ => 0) (0, 0) (1, 1)
      0).degraded = true ∧
    (calculate_optimal_path (fun _ => []) (fun _ _ => 0) (0, 0) (1, 1)
      0).path.length = 2 ∧
    (calculate_optimal_path (fun _ => []) (fun _ _ => 0) (0, 0) (1, 1)
      0).path.map RoutePoint.pos = [(0, 0), (1, 1)] :=
  (C4_degraded_two_point_fallback (fun _ => []) (fun _ _ => 0) (0, 0) (1, 1)
    0).2.2 rfl

/-! ## Grid A*: `astar` from `backend/api/detect_emergency_vehicles.py`

The search works on the integer pixel grid.  Its costs are exact in the
embedding: every queue priority the Python code computes is of the form
`g + sqrt m` with `g m : ℕ` (each step costs `heuristic(current,
neighbor) = sqrt 1 = 1`, so `g` counts steps; `m` is the squared
Euclidean distance to the goal), and the comparator below decides the
order of such numbers by integer arithmetic (`sqrtAddCmp_correct`).  The
claim proved about `astar` (C10) is independent of the pop order. -/

/-- A grid cell `(row, column)`. -/
abbrev Cell := ℤ × ℤ

/-- The occupancy grid built from the detections (`grid = np.zeros(...)`,
line 104): shape `(h, w)` and the cell values (0 = free). -/
structure Grid where
  h : ℕ
  w : ℕ
  val : ℤ → ℤ → ℕ

/-- `get_neighbors` (lines 94–101): the four cardinal neighbours, kept in
direction order, that lie inside the bounds and have grid value 0. -/
def get_neighbors (node : Cell) (grid : Grid) : List Cell :=
  ([(-1, 0), (1, 0), (0, -1), (0, 1)] : List (ℤ × ℤ)).filterMap (fun d =>
    let neighbor : Cell := (node.1 + d.1, node.2 + d.2)
    if 0 ≤ neighbor.1 ∧ neighbor.1 < (grid.h : ℤ) ∧ 0 ≤ neighbor.2 ∧
        neighbor.2 < (grid.w : ℤ) ∧ grid.val neighbor.1 neighbor.2 = 0
    then some neighbor else none)

/-- Squared Euclidean distance between cells: `heuristic a b = sqrt
(distSq a b)` (lines 62–63). -/
def distSq (a b : Cell) : ℕ := ((b.1 - a.1) ^ 2 + (b.2 - a.2) ^ 2).toNat

/-- Decide `compare A (n * sqrt m)` by integer arithmetic. -/
def cmpIntMulSqrt (A : ℤ) (n m : ℕ) : Ordering :=
  if A < 0 then Ordering.lt
  else if A ^ 2 < (n : ℤ) ^ 2 * m then Ordering.lt
  else if A ^ 2 = (n : ℤ) ^ 2 * m then Ordering.eq
  else Ordering.gt

/-- Decide `compare (sqrt m1 + d) (sqrt m2)` by integer arithmetic. -/
def sqrtAddCmp (m1 : ℕ) (d : ℤ) (m2 : ℕ) : Ordering :=
  if 0 ≤ d then (cmpIntMulSqrt ((m2 : ℤ) - m1 - d ^ 2) (2 * d).toNat m1).swap
  else cmpIntMulSqrt ((m1 : ℤ) - m2 - d ^ 2) (2 * (-d)).toNat m2

/-- Python tuple comparison on cells (lexicographic). -/
def cellLe (a b : Cell) : Bool :=
  decide (a.1 < b.1) || (decide (a.1 = b.1) && decide (a.2 ≤ b.2))

/-- An open-set entry `(g, m, node)` standing for the Python heap entry
`(f, node)` with `f = g + sqrt m`. -/
abbrev AEntry := ℕ × ℕ × Cell

/-- The heap order on entries: `f` first (exactly), then the node
tuple — the order `queue.PriorityQueue` pops in. -/
def entryLe (e1 e2 : AEntry) : Bool :=
  match sqrtAddCmp e1.2.1 ((e1.1 : ℤ) - e2.1) e2.2.1 with
  | Ordering.lt => true
  | Ordering.gt => false
  | Ordering.eq => cellLe e1.2.2 e2.2.2

/-- Pop the minimum entry (the first one among exact duplicates). -/
def popMinE : List AEntry → Option (AEntry × List AEntry)
  | [] => none
  | e :: rest =>
    match popMinE rest with
    | none => some (e, [])
    | some (m, others) =>
      if entryLe e m then some (e, rest) else some (m, e :: others)

/-- Dictionary lookup in an association list with newest-first
shadowing. -/
def lookupCell {α : Type} (l : List (Cell × α)) (c : Cell) : Option α :=
  (l.find? (fun p => p.1 == c)).map Prod.snd

/-- One relaxation of the neighbour loop (lines 83–90): if the neighbour
is unseen or the tentative cost (`g_score[current] + 1`: every unit step
has `heuristic = sqrt 1 = 1`) improves its known `g_score`, record the
parent, the score, and push `(f_score, neighbor)`. -/
def relaxCell (goal : Cell) (current : Cell) (gc : ℕ)
    (st : List AEntry × List (Cell × ℕ) × List (Cell × Cell))
    (neighbor : Cell) :
    List AEntry × List (Cell × ℕ) × List (Cell × Cell) :=
  let tentative := gc + 1
  match lookupCell st.2.1 neighbor with
  | none =>
    (st.1 ++ [(tentative, distSq neighbor goal, neighbor)],
     (neighbor, tentative) :: st.2.1, (neighbor, current) :: st.2.2)
  | some gn =>
    if tentative < gn then
      (st.1 ++ [(tentative, distSq neighbor goal, neighbor)],
       (neighbor, tentative) :: st.2.1, (neighbor, current) :: st.2.2)
    else st

/-- The reconstruction loop (lines 76–80): follow `came_from` until the
current cell has no entry, accumulating the path in forward order (the
Python code accumulates backwards and reverses).  Fuel exhaustion (a
cyclic parent map would make Python hang) is mapped to `none`. -/
def walkParents (cf : List (Cell × Cell)) :
    ℕ → Cell → List Cell → Option (List Cell)
  | 0, _, _ => none
  | fuel + 1, current, acc =>
    match lookupCell cf current with
    | some p => walkParents cf fuel p (current :: acc)
    | none => some acc

/-- The A* main loop (lines 72–92).  Fuel exhaustion is mapped to `[]`,
the failure value of the search; a missing `g_score[current]`
(a `KeyError` in Python, unreachable) is mapped to `[]` as well.  On
reaching the goal the code appends `start` after the walk and reverses
(line 80–81), which the forward accumulator renders as `start :: acc`. -/
def astarLoop (goal : Cell) (grid : Grid) (start : Cell) :
    ℕ → List AEntry → List (Cell × ℕ) → List (Cell × Cell) → List Cell
  | 0, _, _, _ => []
  | fuel + 1, openset, gscore, came_from =>
    match popMinE openset with
    | none => []
    | some (e, rest) =>
      if e.2.2 = goal then
        match walkParents came_from (came_from.length + 1) e.2.2 [] with
        | some acc => start :: acc
        | none => []
      else
        match lookupCell gscore e.2.2 with
        | none => []
        | some gc =>
          astarLoop goal grid start fuel
            ((get_neighbors e.2.2 grid).foldl (relaxCell goal e.2.2 gc)
              (rest, gscore, came_from)).1
            ((get_neighbors e.2.2 grid).foldl (relaxCell goal e.2.2 gc)
              (rest, gscore, came_from)).2.1
            ((get_neighbors e.2.2 grid).foldl (relaxCell goal e.2.2 gc)
              (rest, gscore, came_from)).2.2

/-- `astar` (lines 65–92): the initial open set holds `(0, start)` (the
code pushes priority 0, i.e. `g = 0, m = 0`), `g_score = (start, 0)`,
empty `came_from`. -/
def astar (start goal : Cell) (grid : Grid) (fuel : ℕ) : List Cell :=
  astarLoop goal grid start fuel [(0, 0, start)] [(start, 0)] []

/-- One unit step in one of the four cardinal directions. -/
def adjStep (a b : Cell) : Prop :=
  b = (a.1 - 1, a.2) ∨ b = (a.1 + 1, a.2) ∨
  b = (a.1, a.2 - 1) ∨ b = (a.1, a.2 + 1)

instance (a b : Cell) : Decidable (adjStep a b) := by
  unfold adjStep; infer_instance

/-- Inside the grid bounds with value 0. -/
def validCell (grid : Grid) (c : Cell) : Prop :=
  0 ≤ c.1 ∧ c.1 < (grid.h : ℤ) ∧ 0 ≤ c.2 ∧ c.2 < (grid.w : ℤ) ∧
    grid.val c.1 c.2 = 0

instance (grid : Grid) (c : Cell) : Decidable (validCell grid c) := by
  unfold validCell; infer_instance

lemma lt_iff_sq_lt {x y : ℝ} (hx : 0 ≤ x) (hy : 0 ≤ y) :
    x < y ↔ x ^ 2 < y ^ 2 := by
  rw [sq, sq]
  exact mul_self_lt_mul_self_iff hx hy

lemma eq_iff_sq_eq {x y : ℝ} (hx : 0 ≤ x) (hy : 0 ≤ y) :
    x = y ↔ x ^ 2 = y ^ 2 := by
  rw [sq, sq]
  exact (mul_self_inj hx hy).symm

lemma cmpIntMulSqrt_lt (A : ℤ) (n m : ℕ) :
    cmpIntMulSqrt A n m = Ordering.lt ↔ (A : ℝ) < (n : ℝ) * Real.sqrt m := by
  unfold cmpIntMulSqrt
  have hs : (0:ℝ) ≤ Real.sqrt m := Real.sqrt_nonneg _
  have hn : (0:ℝ) ≤ (n:ℝ) := Nat.cast_nonneg n
  have hprod : (0:ℝ) ≤ (n:ℝ) * Real.sqrt m := mul_nonneg hn hs
  have hsq : ((n:ℝ) * Real.sqrt m) ^ 2 = (n:ℝ) ^ 2 * m := by
    rw [mul_pow, Real.sq_sqrt (by positivity)]
  by_cases hA : A < 0
  · simp only [if_pos hA]
    have h : (A:ℝ) < (n:ℝ) * Real.sqrt m :=
      lt_of_lt_of_le (by exact_mod_cast hA) hprod
    simp [h]
  · simp only [if_neg hA]
    push_neg at hA
    have hA' : (0:ℝ) ≤ (A:ℝ) := by exact_mod_cast hA
    have hiff : (A:ℝ) < (n:ℝ) * Real.sqrt m ↔ (A:ℝ)^2 < (n:ℝ)^2 * m := by
      rw [lt_iff_sq_lt hA' hprod, hsq]
    by_cases h1 : A ^ 2 < (n:ℤ) ^ 2 * m
    · have hr : (A:ℝ)^2 < (n:ℝ)^2 * m := by exact_mod_cast h1
      simp [if_pos h1, hiff, hr]
    · have hr : ¬ (A:ℝ)^2 < (n:ℝ)^2 * m := by
        intro hc; exact h1 (by exact_mod_cast hc)
      by_cases h2 : A ^ 2 = (n:ℤ) ^ 2 * m
      · simp only [if_neg h1, if_pos h2]
        constructor
        · intro h; exact absurd h (by decide)
        · intro h; exact absurd (hiff.1 h) hr
      · simp only [if_neg h1, if_neg h2]
        constructor
        · intro h; exact absurd h (by decide)
        · intro h; exact absurd (hiff.1 h) hr

lemma cmpIntMulSqrt_eq (A : ℤ) (n m : ℕ) :
    cmpIntMulSqrt A n m = Ordering.eq ↔ (A : ℝ) = (n : ℝ) * Real.sqrt m := by
  unfold cmpIntMulSqrt
  have hs : (0:ℝ) ≤ Real.sqrt m := Real.sqrt_nonneg _
  have hn : (0:ℝ) ≤ (n:ℝ) := Nat.cast_nonneg n
  have hprod : (0:ℝ) ≤ (n:ℝ) * Real.sqrt m := mul_nonneg hn hs
  have hsq : ((n:ℝ) * Real.sqrt m) ^ 2 = (n:ℝ) ^ 2 * m := by
    rw [mul_pow, Real.sq_sqrt (by positivity)]
  by_cases hA : A < 0
  · simp only [if_pos hA]
    have h : (A:ℝ) < (n:ℝ) * Real.sqrt m :=
      lt_of_lt_of_le (by exact_mod_cast hA) hprod
    constructor
    · intro hc; exact absurd hc (by decide)
    · intro hc; exact absurd hc (ne_of_lt h)
  · simp only [if_neg hA]
    push_neg at hA
    have hA' : (0:ℝ) ≤ (A:ℝ) := by exact_mod_cast hA
    have hiff : (A:ℝ) = (n:ℝ) * Real.sqrt m ↔ (A:ℝ)^2 = (n:ℝ)^2 * m := by
      rw [eq_iff_sq_eq hA' hprod, hsq]
    by_cases h1 : A ^ 2 < (n:ℤ) ^ 2 * m
    · have hr : (A:ℝ)^2 < (n:ℝ)^2 * m := by exact_mod_cast h1
      simp only [if_pos h1]
      constructor
      · intro hc; exact absurd hc (by decide)
      · intro hc; exact absurd (hiff.1 hc) (ne_of_lt hr)
    · by_cases h2 : A ^ 2 = (n:ℤ) ^ 2 * m
      · have hr : (A:ℝ)^2 = (n:ℝ)^2 * m := by exact_mod_cast h2
        simp [if_neg h1, if_pos h2, hiff, hr]
      · have hr : ¬ (A:ℝ)^2 = (n:ℝ)^2 * m := by
          intro hc; exact h2 (by exact_mod_cast hc)
        simp only [if_neg h1, if_neg h2]
        constructor
        · intro hc; exact absurd hc (by decide)
        · intro hc; exact absurd (hiff.1 hc) hr

lemma cmpIntMulSqrt_gt (A : ℤ) (n m : ℕ) :
    cmpIntMulSqrt A n m = Ordering.gt ↔ (n : ℝ) * Real.sqrt m < (A : ℝ) := by
  rcases lt_trichotomy ((A:ℝ)) ((n:ℝ) * Real.sqrt m) with h | h | h
  · have h1 := (cmpIntMulSqrt_lt A n m).2 h
    rw [h1]
    constructor
    · intro hc; exact absurd hc (by decide)
    · intro hc; exact absurd hc (not_lt.2 (le_of_lt h))
  · have h1 := (cmpIntMulSqrt_eq A n m).2 h
    rw [h1]
    constructor
    · intro hc; exact absurd hc (by decide)
    · intro hc; exact absurd hc (not_lt.2 (le_of_eq h))
  · cases hc : cmpIntMulSqrt A n m with
    | lt => exact absurd ((cmpIntMulSqrt_lt A n m).1 hc) (not_lt.2 (le_of_lt h))
    | eq => exact absurd ((cmpIntMulSqrt_eq A n m).1 hc) (ne_of_gt h)
    | gt => simp [h]

lemma ordering_swap_lt {o : Ordering} : o.swap = Ordering.lt ↔ o = Ordering.gt := by
  cases o <;> simp [Ordering.swap]

lemma ordering_swap_eq {o : Ordering} : o.swap = Ordering.eq ↔ o = Ordering.eq := by
  cases o <;> simp [Ordering.swap]

lemma toNat_twice_cast (d : ℤ) (h : 0 ≤ d) : (((2 * d).toNat : ℕ) : ℝ) = 2 * (d : ℝ) := by
  have h2 : ((2 * d).toNat : ℤ) = 2 * d := Int.toNat_of_nonneg (by omega)
  have h3 : (((2 * d).toNat : ℕ) : ℝ) = ((2 * d : ℤ) : ℝ) := by exact_mod_cast h2
  rw [h3]
  push_cast
  ring

lemma sqrtAddCmp_lt (m1 : ℕ) (d : ℤ) (m2 : ℕ) :
    sqrtAddCmp m1 d m2 = Ordering.lt ↔
      Real.sqrt m1 + (d : ℝ) < Real.sqrt m2 := by
  unfold sqrtAddCmp
  have hs1 : (0:ℝ) ≤ Real.sqrt m1 := Real.sqrt_nonneg _
  have hs2 : (0:ℝ) ≤ Real.sqrt m2 := Real.sqrt_nonneg _
  have h1 : Real.sqrt (m1:ℝ) ^ 2 = (m1:ℝ) := Real.sq_sqrt (by positivity)
  have h2 : Real.sqrt (m2:ℝ) ^ 2 = (m2:ℝ) := Real.sq_sqrt (by positivity)
  by_cases hd : 0 ≤ d
  · have hd' : (0:ℝ) ≤ (d:ℝ) := by exact_mod_cast hd
    have hx : (0:ℝ) ≤ Real.sqrt m1 + d := by linarith
    have hkey : Real.sqrt m1 + (d:ℝ) < Real.sqrt m2 ↔
        2 * (d:ℝ) * Real.sqrt m1 < (m2:ℝ) - m1 - (d:ℝ)^2 := by
      rw [lt_iff_sq_lt hx hs2, add_sq, h1, h2]
      constructor <;> intro <;> linarith
    simp only [if_pos hd]
    rw [ordering_swap_lt, cmpIntMulSqrt_gt, toNat_twice_cast d hd, hkey]
    push_cast
    constructor <;> intro <;> linarith
  · push_neg at hd
    have he : (0:ℝ) < -(d:ℝ) := by
      have : (d:ℝ) < 0 := by exact_mod_cast hd
      linarith
    have hy : (0:ℝ) ≤ Real.sqrt m2 + -(d:ℝ) := by linarith
    have hkey : Real.sqrt m1 + (d:ℝ) < Real.sqrt m2 ↔
        (m1:ℝ) - m2 - (d:ℝ)^2 < 2 * -(d:ℝ) * Real.sqrt m2 := by
      have hstep : Real.sqrt m1 + (d:ℝ) < Real.sqrt m2 ↔
          Real.sqrt m1 < Real.sqrt m2 + -(d:ℝ) := by
        constructor <;> intro <;> linarith
      rw [hstep, lt_iff_sq_lt hs1 hy, add_sq, h1, h2]
      constructor <;> intro <;> nlinarith
    simp only [if_neg (not_le.2 hd)]
    rw [cmpIntMulSqrt_lt, toNat_twice_cast (-d) (by omega), hkey]
    push_cast
    constructor <;> intro <;> linarith

lemma sqrtAddCmp_eq (m1 : ℕ) (d : ℤ) (m2 : ℕ) :
    sqrtAddCmp m1 d m2 = Ordering.eq ↔
      Real.sqrt m1 + (d : ℝ) = Real.sqrt m2 := by
  unfold sqrtAddCmp
  have hs1 : (0:ℝ) ≤ Real.sqrt m1 := Real.sqrt_nonneg _
  have hs2 : (0:ℝ) ≤ Real.sqrt m2 := Real.sqrt_nonneg _
  have h1 : Real.sqrt (m1:ℝ) ^ 2 = (m1:ℝ) := Real.sq_sqrt (by positivity)
  have h2 : Real.sqrt (m2:ℝ) ^ 2 = (m2:ℝ) := Real.sq_sqrt (by positivity)
  by_cases hd : 0 ≤ d
  · have hd' : (0:ℝ) ≤ (d:ℝ) := by exact_mod_cast hd
    have hx : (0:ℝ) ≤ Real.sqrt m1 + d := by linarith
    have hkey : Real.sqrt m1 + (d:ℝ) = Real.sqrt m2 ↔
        (m2:ℝ) - m1 - (d:ℝ)^2 = 2 * (d:ℝ) * Real.sqrt m1 := by
      rw [eq_iff_sq_eq hx hs2, add_sq, h1, h2]
      constructor <;> intro <;> linarith
    simp only [if_pos hd]
    rw [ordering_swap_eq, cmpIntMulSqrt_eq, toNat_twice_cast d hd, hkey]
    push_cast
    constructor <;> intro h <;> linarith
  · push_neg at hd
    have he : (0:ℝ) < -(d:ℝ) := by
      have : (d:ℝ) < 0 := by exact_mod_cast hd
      linarith
    have hy : (0:ℝ) ≤ Real.sqrt m2 + -(d:ℝ) := by linarith
    have hkey : Real.sqrt m1 + (d:ℝ) = Real.sqrt m2 ↔
        (m1:ℝ) - m2 - (d:ℝ)^2 = 2 * -(d:ℝ) * Real.sqrt m2 := by
      have hstep : Real.sqrt m1 + (d:ℝ) = Real.sqrt m2 ↔
          Real.sqrt m1 = Real.sqrt m2 + -(d:ℝ) := by
        constructor <;> intro <;> linarith
      rw [hstep, eq_iff_sq_eq hs1 hy, add_sq, h1, h2]
      constructor <;> intro <;> nlinarith
    simp only [if_neg (not_le.2 hd)]
    rw [cmpIntMulSqrt_eq, toNat_twice_cast (-d) (by omega), hkey]
    push_cast
    constructor <;> intro <;> linarith

/-- The entry order decides the exact heap-tuple order `(g + sqrt m,
node)`: it holds exactly when the first entry's `f` is smaller, or the
`f` values are equal and the node tuple is not larger. -/
lemma entryLe_correct (e1 e2 : AEntry) :
    entryLe e1 e2 = true ↔
      ((e1.1 : ℝ) + Real.sqrt e1.2.1 < (e2.1 : ℝ) + Real.sqrt e2.2.1 ∨
       ((e1.1 : ℝ) + Real.sqrt e1.2.1 = (e2.1 : ℝ) + Real.sqrt e2.2.1 ∧
        cellLe e1.2.2 e2.2.2 = true)) := by
  unfold entryLe
  have hshift_lt : Real.sqrt e1.2.1 + ((e1.1 : ℤ) - e2.1 : ℤ) < Real.sqrt e2.2.1 ↔
      (e1.1 : ℝ) + Real.sqrt e1.2.1 < (e2.1 : ℝ) + Real.sqrt e2.2.1 := by
    push_cast
    constructor <;> intro <;> linarith
  have hshift_eq : Real.sqrt e1.2.1 + ((e1.1 : ℤ) - e2.1 : ℤ) = Real.sqrt e2.2.1 ↔
      (e1.1 : ℝ) + Real.sqrt e1.2.1 = (e2.1 : ℝ) + Real.sqrt e2.2.1 := by
    push_cast
    constructor <;> intro <;> linarith
  cases hc : sqrtAddCmp e1.2.1 ((e1.1 : ℤ) - e2.1) e2.2.1 with
  | lt =>
    have h := hshift_lt.1 ((sqrtAddCmp_lt _ _ _).1 hc)
    dsimp only
    simp [h]
  | eq =>
    have h := hshift_eq.1 ((sqrtAddCmp_eq _ _ _).1 hc)
    dsimp only
    constructor
    · intro hb; exact Or.inr ⟨h, hb⟩
    · intro hb
      rcases hb with hb | hb
      · exact absurd h (ne_of_lt hb)
      · exact hb.2
  | gt =>
    have hnlt : ¬ Real.sqrt e1.2.1 + ((e1.1 : ℤ) - e2.1 : ℤ) < Real.sqrt e2.2.1 := by
      intro hcon
      have := (sqrtAddCmp_lt _ _ _).2 hcon
      rw [hc] at this
      exact absurd this (by decide)
    have hneq : ¬ Real.sqrt e1.2.1 + ((e1.1 : ℤ) - e2.1 : ℤ) = Real.sqrt e2.2.1 := by
      intro hcon
      have := (sqrtAddCmp_eq _ _ _).2 hcon
      rw [hc] at this
      exact absurd this (by decide)
    dsimp only
    constructor
    · intro hb; exact absurd hb Bool.false_ne_true
    · intro hb
      rcases hb with hb | hb
      · exact absurd (hshift_lt.2 hb) hnlt
      · exact absurd (hshift_eq.2 hb.1) hneq

lemma get_neighbors_spec (node : Cell) (grid : Grid) (nb : Cell)
    (h : nb ∈ get_neighbors node grid) :
    adjStep node nb ∧ validCell grid nb := by
  unfold get_neighbors at h
  rw [List.mem_filterMap] at h
  obtain ⟨d, hd, heq⟩ := h
  dsimp only at heq
  split at heq
  case isTrue hcond =>
    simp only [Option.some.injEq] at heq
    subst heq
    simp only [List.mem_cons, List.mem_singleton, List.not_mem_nil, or_false]
      at hd
    refine ⟨?_, hcond⟩
    unfold adjStep
    rcases hd with rfl | rfl | rfl | rfl
    · left; simp [Prod.ext_iff]; ring
    · right; left; simp [Prod.ext_iff]
    · right; right; left; simp [Prod.ext_iff]; ring
    · right; right; right; simp [Prod.ext_iff]
  case isFalse => cases heq

lemma popMinE_mem :
    ∀ (l : List AEntry) (e : AEntry) (rest : List AEntry),
      popMinE l = some (e, rest) → e ∈ l ∧ ∀ x ∈ rest, x ∈ l := by
  intro l
  induction l with
  | nil => intro e rest h; cases h
  | cons a tl ih =>
    intro e rest h
    unfold popMinE at h
    cases hp : popMinE tl with
    | none =>
      rw [hp] at h
      simp only [Option.some.injEq, Prod.mk.injEq] at h
      obtain ⟨rfl, rfl⟩ := h
      exact ⟨List.mem_cons_self a tl, fun x hx => absurd hx (List.not_mem_nil x)⟩
    | some pr =>
      obtain ⟨m, others⟩ := pr
      rw [hp] at h
      dsimp only at h
      by_cases hle : entryLe a m = true
      · rw [if_pos hle] at h
        simp only [Option.some.injEq, Prod.mk.injEq] at h
        obtain ⟨rfl, rfl⟩ := h
        exact ⟨List.mem_cons_self a tl, fun x hx => List.mem_cons_of_mem a hx⟩
      · rw [if_neg hle] at h
        simp only [Option.some.injEq, Prod.mk.injEq] at h
        obtain ⟨rfl, rfl⟩ := h
        obtain ⟨hm, hsub⟩ := ih _ others hp
        refine ⟨List.mem_cons_of_mem a hm, ?_⟩
        intro x hx
        rcases List.mem_cons.1 hx with rfl | hx'
        · exact List.mem_cons_self x tl
        · exact List.mem_cons_of_mem a (hsub x hx')

lemma lookupCell_mem {α : Type} (l : List (Cell × α)) (c : Cell) (v : α)
    (h : lookupCell l c = some v) : (c, v) ∈ l := by
  unfold lookupCell at h
  cases hf : l.find? (fun p => p.1 == c) with
  | none => rw [hf] at h; cases h
  | some pr =>
    rw [hf] at h
    simp only [Option.map_some', Option.some.injEq] at h
    have hmem := List.mem_of_find?_eq_some hf
    have hp : pr.1 = c := by simpa using List.find?_some hf
    have : (c, v) = pr := by
      obtain ⟨p1, p2⟩ := pr
      simp only at hp h
      rw [hp, h]
    rw [this]
    exact hmem

lemma lookupCell_none {α : Type} (l : List (Cell × α)) (c : Cell)
    (h : lookupCell l c = none) : ∀ pr ∈ l, pr.1 ≠ c := by
  have hf : l.find? (fun p => p.1 == c) = none := by
    cases hf : l.find? (fun p => p.1 == c) with
    | none => rfl
    | some pr => unfold lookupCell at h; rw [hf] at h; cases h
  intro pr hpr
  have := List.find?_eq_none.1 hf pr hpr
  simpa using this

lemma lookupCell_cons {α : Type} (k : Cell) (v : α) (l : List (Cell × α))
    (c : Cell) :
    lookupCell ((k, v) :: l) c =
      if k == c then some v else lookupCell l c := by
  unfold lookupCell
  by_cases hk : (k == c) = true
  · simp [List.find?, hk]
  · simp [List.find?, hk]

/-- Invariant of the `came_from` map: every entry's key is a valid grid
cell one cardinal step from its parent, is never the start cell, and its
parent is the start cell or another key. -/
def CFInv (grid : Grid) (start : Cell) (cf : List (Cell × Cell)) : Prop :=
  ∀ pr ∈ cf, validCell grid pr.1 ∧ adjStep pr.2 pr.1 ∧ pr.1 ≠ start ∧
    (pr.2 = start ∨ ∃ pr2 ∈ cf, pr2.1 = pr.2)

lemma relaxCell_step_inv (grid : Grid) (start goal current : Cell) (gc : ℕ)
    (nb : Cell) (hnb : adjStep current nb ∧ validCell grid nb)
    (st : List AEntry × List (Cell × ℕ) × List (Cell × Cell))
    (hcf : CFInv grid start st.2.2)
    (hopen : ∀ e ∈ st.1, e.2.2 = start ∨ ∃ pr ∈ st.2.2, pr.1 = e.2.2)
    (hg : lookupCell st.2.1 start = some 0)
    (hcur : current = start ∨ ∃ pr ∈ st.2.2, pr.1 = current) :
    CFInv grid start (relaxCell goal current gc st nb).2.2 ∧
    (∀ e ∈ (relaxCell goal current gc st nb).1,
      e.2.2 = start ∨ ∃ pr ∈ (relaxCell goal current gc st nb).2.2,
        pr.1 = e.2.2) ∧
    lookupCell (relaxCell goal current gc st nb).2.1 start = some 0 ∧
    (∀ pr ∈ st.2.2, pr ∈ (relaxCell goal current gc st nb).2.2) := by
  have hins : lookupCell st.2.1 nb = none ∨
      (∃ gn, lookupCell st.2.1 nb = some gn ∧ gc + 1 < gn) →
      nb ≠ start := by
    intro hc h
    subst h
    rcases hc with hnone | ⟨gn, hsome, hlt⟩
    · rw [hg] at hnone; cases hnone
    · rw [hg] at hsome
      simp only [Option.some.injEq] at hsome
      subst hsome
      exact absurd hlt (by omega)
  unfold relaxCell
  cases hl : lookupCell st.2.1 nb with
  | none =>
    have hnbs : nb ≠ start := hins (Or.inl hl)
    dsimp only
    refine ⟨?_, ?_, ?_, ?_⟩
    · intro pr hpr
      rcases List.mem_cons.1 hpr with rfl | hpr'
      · exact ⟨hnb.2, hnb.1, hnbs, by
          rcases hcur with h | ⟨pr2, hpr2, hp2⟩
          · exact Or.inl h
          · exact Or.inr ⟨pr2, List.mem_cons_of_mem _ hpr2, hp2⟩⟩
      · obtain ⟨h1, h2, h3, h4⟩ := hcf pr hpr'
        refine ⟨h1, h2, h3, ?_⟩
        rcases h4 with h | ⟨pr2, hpr2, hp2⟩
        · exact Or.inl h
        · exact Or.inr ⟨pr2, List.mem_cons_of_mem _ hpr2, hp2⟩
    · intro e he
      rcases List.mem_append.1 he with h1 | h2
      · rcases hopen e h1 with h | ⟨pr, hpr, hp⟩
        · exact Or.inl h
        · exact Or.inr ⟨pr, List.mem_cons_of_mem _ hpr, hp⟩
      · rcases List.mem_singleton.1 h2 with rfl
        exact Or.inr ⟨(nb, current), List.mem_cons_self _ _, rfl⟩
    · rw [lookupCell_cons]
      rw [if_neg (by simpa using hnbs)]
      exact hg
    · intro pr hpr; exact List.mem_cons_of_mem _ hpr
  | some gn =>
    dsimp only
    by_cases hlt : gc + 1 < gn
    · have hnbs : nb ≠ start := hins (Or.inr ⟨gn, hl, hlt⟩)
      rw [if_pos hlt]
      refine ⟨?_, ?_, ?_, ?_⟩
      · intro pr hpr
        rcases List.mem_cons.1 hpr with rfl | hpr'
        · exact ⟨hnb.2, hnb.1, hnbs, by
            rcases hcur with h | ⟨pr2, hpr2, hp2⟩
            · exact Or.inl h
            · exact Or.inr ⟨pr2, List.mem_cons_of_mem _ hpr2, hp2⟩⟩
        · obtain ⟨h1, h2, h3, h4⟩ := hcf pr hpr'
          refine ⟨h1, h2, h3, ?_⟩
          rcases h4 with h | ⟨pr2, hpr2, hp2⟩
          · exact Or.inl h
          · exact Or.inr ⟨pr2, List.mem_cons_of_mem _ hpr2, hp2⟩
      · intro e he
        rcases List.mem_append.1 he with h1 | h2
        · rcases hopen e h1 with h | ⟨pr, hpr, hp⟩
          · exact Or.inl h
          · exact Or.inr ⟨pr, List.mem_cons_of_mem _ hpr, hp⟩
        · rcases List.mem_singleton.1 h2 with rfl
          exact Or.inr ⟨(nb, current), List.mem_cons_self _ _, rfl⟩
      · rw [lookupCell_cons]
        rw [if_neg (by simpa using hnbs)]
        exact hg
      · intro pr hpr; exact List.mem_cons_of_mem _ hpr
    · rw [if_neg hlt]
      exact ⟨hcf, hopen, hg, fun pr hpr => hpr⟩

lemma relaxCell_fold_inv (grid : Grid) (start goal current : Cell) (gc : ℕ) :
    ∀ (nbs : List Cell),
      (∀ nb ∈ nbs, adjStep current nb ∧ validCell grid nb) →
      ∀ st : List AEntry × List (Cell × ℕ) × List (Cell × Cell),
        CFInv grid start st.2.2 →
        (∀ e ∈ st.1, e.2.2 = start ∨ ∃ pr ∈ st.2.2, pr.1 = e.2.2) →
        lookupCell st.2.1 start = some 0 →
        (current = start ∨ ∃ pr ∈ st.2.2, pr.1 = current) →
        CFInv grid start (nbs.foldl (relaxCell goal current gc) st).2.2 ∧
        (∀ e ∈ (nbs.foldl (relaxCell goal current gc) st).1,
          e.2.2 = start ∨
            ∃ pr ∈ (nbs.foldl (relaxCell goal current gc) st).2.2,
              pr.1 = e.2.2) ∧
        lookupCell (nbs.foldl (relaxCell goal current gc) st).2.1 start =
          some 0 := by
  intro nbs
  induction nbs with
  | nil => intro _ st h1 h2 h3 _; exact ⟨h1, h2, h3⟩
  | cons nb tl ih =>
    intro hnbs st h1 h2 h3 hcur
    rw [List.foldl_cons]
    obtain ⟨g1, g2, g3, gmono⟩ := relaxCell_step_inv grid start goal current
      gc nb (hnbs nb (List.mem_cons_self nb tl)) st h1 h2 h3 hcur
    refine ih (fun x hx => hnbs x (List.mem_cons_of_mem nb hx)) _ g1 g2 g3 ?_
    rcases hcur with h | ⟨pr, hpr, hp⟩
    · exact Or.inl h
    · exact Or.inr ⟨pr, gmono pr hpr, hp⟩

lemma walkParents_sound (grid : Grid) (start goal : Cell)
    (cf : List (Cell × Cell)) (hcf : CFInv grid start cf) :
    ∀ (fuel : ℕ) (current : Cell) (acc acc' : List Cell),
      (current = start ∨ ∃ pr ∈ cf, pr.1 = current) →
      List.Chain' adjStep (current :: acc) →
      (current :: acc).getLast? = some goal →
      (∀ c ∈ acc, validCell grid c) →
      walkParents cf fuel current acc = some acc' →
      List.Chain' adjStep (start :: acc') ∧
        (start :: acc').getLast? = some goal ∧
        ∀ c ∈ acc', validCell grid c := by
  intro fuel
  induction fuel with
  | zero => intro _ _ _ _ _ _ _ h; cases h
  | succ n ih =>
    intro current acc acc' hcur hchain hlast hvalid hw
    unfold walkParents at hw
    cases hl : lookupCell cf current with
    | none =>
      rw [hl] at hw
      simp only [Option.some.injEq] at hw
      subst hw
      have hstart : current = start := by
        rcases hcur with h | ⟨pr, hpr, hp⟩
        · exact h
        · exact absurd hp (lookupCell_none cf current hl pr hpr)
      subst hstart
      exact ⟨hchain, hlast, hvalid⟩
    | some p =>
      rw [hl] at hw
      have hmem := lookupCell_mem cf current p hl
      obtain ⟨hvc, hadj, -, hclose⟩ := hcf (current, p) hmem
      refine ih p (current :: acc) acc' hclose ?_ ?_ ?_ hw
      · exact List.chain'_cons.2 ⟨hadj, hchain⟩
      · rw [List.getLast?_cons_cons]
        exact hlast
      · intro c hc
        rcases List.mem_cons.1 hc with rfl | hc'
        · exact hvc
        · exact hvalid c hc'

lemma astarLoop_sound (goal : Cell) (grid : Grid) (start : Cell) :
    ∀ (fuel : ℕ) (openset : List AEntry) (gscore : List (Cell × ℕ))
      (cf : List (Cell × Cell)) (p : List Cell),
      CFInv grid start cf →
      (∀ e ∈ openset, e.2.2 = start ∨ ∃ pr ∈ cf, pr.1 = e.2.2) →
      lookupCell gscore start = some 0 →
      astarLoop goal grid start fuel openset gscore cf = p →
      p ≠ [] →
      p.head? = some start ∧ p.getLast? = some goal ∧
        List.Chain' adjStep p ∧ ∀ c ∈ p.tail, validCell grid c := by
  intro fuel
  induction fuel with
  | zero =>
    intro _ _ _ p _ _ _ heq hne
    exact absurd heq.symm hne
  | succ n ih =>
    intro openset gscore cf p hcf hopen hg heq hne
    unfold astarLoop at heq
    cases hpop : popMinE openset with
    | none => rw [hpop] at heq; exact absurd heq.symm hne
    | some pr =>
      obtain ⟨e, rest⟩ := pr
      rw [hpop] at heq
      dsimp only at heq
      obtain ⟨hemem, hrest⟩ := popMinE_mem openset _ _ hpop
      by_cases hgoal : e.2.2 = goal
      · rw [if_pos hgoal] at heq
        cases hwalk : walkParents cf (cf.length + 1) e.2.2 [] with
        | none => rw [hwalk] at heq; exact absurd heq.symm hne
        | some acc =>
          rw [hwalk] at heq
          have hw := walkParents_sound grid start goal cf hcf
            (cf.length + 1) e.2.2 [] acc (hopen e hemem)
            (List.chain'_singleton _) (by simp [hgoal])
            (fun c hc => absurd hc (List.not_mem_nil c)) hwalk
          subst heq
          exact ⟨rfl, hw.2.1, hw.1, hw.2.2⟩
      · rw [if_neg hgoal] at heq
        cases hgsc : lookupCell gscore e.2.2 with
        | none => rw [hgsc] at heq; exact absurd heq.symm hne
        | some gc =>
          rw [hgsc] at heq
          have hnbs : ∀ nb ∈ get_neighbors e.2.2 grid,
              adjStep e.2.2 nb ∧ validCell grid nb :=
            fun nb h => get_neighbors_spec _ _ _ h
          obtain ⟨g1, g2, g3⟩ := relaxCell_fold_inv grid start goal e.2.2 gc
            (get_neighbors e.2.2 grid) hnbs (rest, gscore, cf) hcf
            (fun x hx => hopen x (hrest x hx)) hg (hopen e hemem)
          exact ih _ _ _ p g1 g2 g3 heq hne

/-- C10. Whenever the grid A* search `astar` returns a non-empty path,
its first element is the start cell, its last element is the goal cell,
every pair of consecutive cells differs by exactly one cardinal unit
step, and every cell after the first lies inside the grid bounds with
grid value 0. -/
theorem C10_astar_path_valid (start goal : Cell) (grid : Grid) (fuel : ℕ)
    (hne : astar start goal grid fuel ≠ []) :
    (astar start goal grid fuel).head? = some start ∧
    (astar start goal grid fuel).getLast? = some goal ∧
    List.Chain' adjStep (astar start goal grid fuel) ∧
    ∀ c ∈ (astar start goal grid fuel).tail, validCell grid c := by
  refine astarLoop_sound goal grid start fuel [(0, 0, start)] [(start, 0)] []
    _ ?_ ?_ ?_ rfl hne
  · intro pr hpr; exact absurd hpr (List.not_mem_nil pr)
  · intro e he
    rcases List.mem_singleton.1 he with rfl
    exact Or.inl rfl
  · simp [lookupCell]

/-- C10 witness: a 2×2 all-free grid; the search returns the path
`[(0,0), (0,1), (1,1)]`, on which all four conclusions evaluate. -/
theorem C10_astar_witness :
    (astar (0, 0) (1, 1) ⟨2, 2, fun _ _ => 0⟩ 20).head? = some (0, 0) ∧
    (astar (0, 0) (1, 1) ⟨2, 2, fun _ _ => 0⟩ 20).getLast? = some (1, 1) ∧
    List.Chain' adjStep (astar (0, 0) (1, 1) ⟨2, 2, fun _ _ => 0⟩ 20) ∧
    ∀ c ∈ (astar (0, 0) (1, 1) ⟨2, 2, fun _ _ => 0⟩ 20).tail,
      validCell ⟨2, 2, fun _ _ => 0⟩ c :=
  C10_astar_path_valid (0, 0) (1, 1) ⟨2, 2, fun _ _ => 0⟩ 20 (by decide)

end Emergency
